import Mathlib

/-!
Verification of the ynab-assistant core against its specification.

The Python source is shallowly embedded:
  * Python `dict` (insertion-ordered, unique keys) is modelled as an
    association list `List (String × α)` with lookup on the first
    occurrence, in-place update, append-on-new-key insertion, and
    first-occurrence removal — exactly the observable behaviour of a
    Python dict whose keys are unique.
  * Machine floats are modelled as exact rationals (`ℚ`); Python's
    `round(x, n)` (round-half-to-even) is modelled exactly over `ℚ`.
  * `async` I/O methods are modelled as pure state transformers taking
    the HTTP outcome (success body / status error / timeout) as an
    explicit parameter; raising an exception is modelled with `Except`.
-/

set_option autoImplicit false

namespace Ynab

/-! ### Python-dict model -/

/-- Lookup of the first binding of `k`, `d.get(k)`. -/
def dget {α : Type} : List (String × α) → String → Option α
  | [], _ => none
  | (k', v) :: rest, k => if k' = k then some v else dget rest k

/-- `d[k] = v`: replace the binding in place if present, else append. -/
def dset {α : Type} : List (String × α) → String → α → List (String × α)
  | [], k, v => [(k, v)]
  | (k', v') :: rest, k, v =>
      if k' = k then (k', v) :: rest else (k', v') :: dset rest k v

/-- `d.pop(k, None)`: remove the first binding of `k`, if any. -/
def dpop {α : Type} : List (String × α) → String → List (String × α)
  | [], _ => []
  | (k', v') :: rest, k => if k' = k then rest else (k', v') :: dpop rest k

/-- `list(d.values())`. -/
def dvalues {α : Type} (d : List (String × α)) : List α :=
  d.map Prod.snd

/-- The keys of an association list. -/
def dkeys {α : Type} (d : List (String × α)) : List String :=
  d.map Prod.fst

/-! ### Delta items and `YNABClient._merge_delta`

A response item is a JSON object; only the two fields the merge logic
reads are modelled explicitly: `key` is `item.get(id_field)` (the value
of the configured id field — `"id"` by default, `"month"` for months;
`none` models an absent field) and `deleted` is the truthiness of
`item.get("deleted", False)`.  The rest of the object is abstracted as
an opaque `payload`. -/

structure DeltaItem where
  key : Option String
  deleted : Bool
  payload : Nat
  deriving Repr, DecidableEq

abbrev Table := List (String × DeltaItem)

/-- One iteration of the `for item in items` loop of
`YNABClient._merge_delta`: a falsy key (`None` or `""`) is skipped, a
deleted item is popped from the table, any other item is upserted. -/
def mergeStep (cache : Table) (item : DeltaItem) : Table :=
  match item.key with
  | none => cache
  | some k =>
      if k = "" then cache
      else if item.deleted then dpop cache k
      else dset cache k item

/-- `YNABClient._merge_delta` on a single resource table: folds the
items in order into the table and returns the new table together with
`list(cache.values())`. -/
def mergeDelta (cache : Table) (items : List DeltaItem) : Table × List DeltaItem :=
  let c := items.foldl mergeStep cache
  (c, dvalues c)

/-! ### Client state and `YNABClient._request` -/

structure ClientState where
  serverKnowledge : List (String × Int)
  deltaCache : List (String × Table)
  deriving Repr, DecidableEq

/-- `YNABClient._merge_delta` including its access to
`self._delta_cache[path]` (creating the entry when missing). -/
def clientMergeDelta (st : ClientState) (path : String) (items : List DeltaItem) :
    ClientState × List DeltaItem :=
  let table := (dget st.deltaCache path).getD []
  let r := mergeDelta table items
  ({ st with deltaCache := dset st.deltaCache path r.1 }, r.2)

/-- The YNAB API error (`YNABError`). -/
structure YNABError where
  statusCode : Nat
  errorId : String
  name : String
  detail : String
  deriving Repr, DecidableEq

/-- The `"data"` object of a successful response: an optional
`server_knowledge` field plus the named record lists (`"accounts"`,
`"transactions"`, …). -/
structure ResponseData where
  serverKnowledge : Option Int
  lists : List (String × List DeltaItem)
  deriving Repr, DecidableEq

/-- Outcome of the underlying HTTP call, supplied to the model as a
parameter.  `statusError` carries the response status plus the optional
`"error"` body fields (`id`, `name`, `detail`) and the exception's
string rendering (the fallback detail); `timeout` models
`httpx.TimeoutException`. -/
inductive HttpOutcome where
  | success (data : ResponseData)
  | statusError (status : Nat) (errId errName errDetail : Option String) (exnStr : String)
  | timeout
  deriving Repr, DecidableEq

/-- The query parameters actually sent: `_request` adds
`last_knowledge_of_server` exactly when `use_delta` holds and a token is
stored for the path. -/
def sentParams (st : ClientState) (path : String) (useDelta : Bool)
    (params : List (String × String)) : List (String × String) :=
  if useDelta then
    match dget st.serverKnowledge path with
    | some tok => dset params "last_knowledge_of_server" (toString tok)
    | none => params
  else params

structure RequestTrace where
  state : ClientState
  result : Except YNABError ResponseData
  sent : List (String × String)
  deriving Repr

/-- `YNABClient._request`.  On an HTTP failure the exception is raised
before any mutation, so the returned state is the input state.  On
success, when `use_delta` holds: a `server_knowledge` field replaces the
stored token, and when `delta_key` names a list present in the body that
list is merged into the cache and replaced by the full materialized
list. -/
def request (st : ClientState) (path : String) (params : List (String × String))
    (useDelta : Bool) (deltaKey : Option String) (outcome : HttpOutcome) : RequestTrace :=
  let sent := sentParams st path useDelta params
  match outcome with
  | .statusError status errId errName errDetail exnStr =>
      { state := st
        result := .error
          { statusCode := status
            errorId := errId.getD (toString status)
            name := errName.getD "unknown_error"
            detail := errDetail.getD exnStr }
        sent := sent }
  | .timeout =>
      { state := st
        result := .error
          { statusCode := 408
            errorId := "timeout"
            name := "request_timeout"
            detail := "Request to YNAB API timed out. Please try again." }
        sent := sent }
  | .success data =>
      let st1 :=
        if useDelta then
          match data.serverKnowledge with
          | some tok => { st with serverKnowledge := dset st.serverKnowledge path tok }
          | none => st
        else st
      match useDelta, deltaKey with
      | true, some dk =>
          match dget data.lists dk with
          | some items =>
              let r := clientMergeDelta st1 path items
              { state := r.1
                result := .ok { data with lists := dset data.lists dk r.2 }
                sent := sent }
          | none => { state := st1, result := .ok data, sent := sent }
      | _, _ => { state := st1, result := .ok data, sent := sent }

/-- Truthiness of an optional string argument (Python `if s:`). -/
def optTruthy : Option String → Bool
  | some s => s ≠ ""
  | none => false

/-- `YNABClient.get_accounts` (the `_request` call it makes). -/
def getAccounts (st : ClientState) (bid : String) (outcome : HttpOutcome) : RequestTrace :=
  request st ("/budgets/" ++ bid ++ "/accounts") [] true (some "accounts") outcome

/-- `YNABClient.get_categories` (the `_request` call it makes): note the
source passes neither `use_delta` nor `delta_key`. -/
def getCategories (st : ClientState) (bid : String) (outcome : HttpOutcome) : RequestTrace :=
  request st ("/budgets/" ++ bid ++ "/categories") [] false none outcome

/-- `YNABClient.get_payees` (the `_request` call it makes). -/
def getPayees (st : ClientState) (bid : String) (outcome : HttpOutcome) : RequestTrace :=
  request st ("/budgets/" ++ bid ++ "/payees") [] true (some "payees") outcome

/-- `YNABClient.get_months` (the `_request` call it makes;
`delta_id_field="month"` is reflected in the items' `key` field). -/
def getMonths (st : ClientState) (bid : String) (outcome : HttpOutcome) : RequestTrace :=
  request st ("/budgets/" ++ bid ++ "/months") [] true (some "months") outcome

/-- `YNABClient.get_transactions`: the path depends on the filters,
and any filter disables delta sync. -/
def getTransactions (st : ClientState) (bid : String)
    (sinceDate accountId categoryId : Option String) (outcome : HttpOutcome) : RequestTrace :=
  let params : List (String × String) :=
    match sinceDate with
    | some s => if s = "" then [] else [("since_date", s)]
    | none => []
  let path :=
    if optTruthy accountId then
      "/budgets/" ++ bid ++ "/accounts/" ++ accountId.getD "" ++ "/transactions"
    else if optTruthy categoryId then
      "/budgets/" ++ bid ++ "/categories/" ++ categoryId.getD "" ++ "/transactions"
    else
      "/budgets/" ++ bid ++ "/transactions"
  let hasFilter := optTruthy sinceDate || optTruthy accountId || optTruthy categoryId
  request st path params (!hasFilter) (if hasFilter then none else some "transactions") outcome

/-- `YNABClient.delete_transaction`: issues the DELETE (no delta), and
on success evicts the id from the whole-collection transactions table
of the budget. -/
def deleteTransaction (st : ClientState) (bid tid : String) (outcome : HttpOutcome) :
    ClientState × Except YNABError Unit :=
  let tr := request st ("/budgets/" ++ bid ++ "/transactions/" ++ tid) [] false none outcome
  match tr.result with
  | .error e => (tr.state, .error e)
  | .ok _ =>
      let path := "/budgets/" ++ bid ++ "/transactions"
      match dget tr.state.deltaCache path with
      | some table =>
          ({ tr.state with deltaCache := dset tr.state.deltaCache path (dpop table tid) },
           .ok ())
      | none => (tr.state, .ok ())

/-! ### Numeric helpers

Python floats are idealized as exact rationals.  `round(x, n)` uses
round-half-to-even, modelled exactly. -/

/-- Round-half-to-even of a rational to an integer (the rounding mode of
Python's built-in `round`). -/
def rhe (x : ℚ) : ℤ :=
  let f := ⌊x⌋
  if x - f < 1/2 then f
  else if 1/2 < x - f then f + 1
  else if f % 2 = 0 then f else f + 1

/-- Python `round(x, n)`. -/
def pyRound (x : ℚ) (n : ℕ) : ℚ :=
  (rhe (x * 10 ^ n) : ℚ) / 10 ^ n

/-- `round(x, 2)`. -/
def round2 (x : ℚ) : ℚ := pyRound x 2

/-- `round(x, 1)`. -/
def round1 (x : ℚ) : ℚ := pyRound x 1

/-- `milliunits_to_dollars`: `milliunits / 1000.0`. -/
def m2d (mu : ℤ) : ℚ := (mu : ℚ) / 1000

/-- Python `abs` on a rational (kept as an explicit function so that it
evaluates by kernel reduction). -/
def qabs (x : ℚ) : ℚ := if x < 0 then -x else x

/-- Python `abs` on an integer. -/
def zabs (n : ℤ) : ℤ := if n < 0 then -n else n

theorem qabs_eq_abs (x : ℚ) : qabs x = |x| := by
  unfold qabs
  by_cases h : x < 0
  · simp [h, abs_of_neg h]
  · simp [h, abs_of_nonneg (le_of_not_lt h)]

theorem zabs_eq_abs (n : ℤ) : zabs n = |n| := by
  unfold zabs
  by_cases h : n < 0
  · simp [h, abs_of_neg h]
  · simp [h, abs_of_nonneg (le_of_not_lt h)]

/-! ### Domain snapshot types (the fields the analysed functions read) -/

structure Category where
  id : String
  name : String
  budgeted : ℤ
  activity : ℤ
  balance : ℤ
  hidden : Bool
  deleted : Bool
  deriving Repr, DecidableEq

structure CategoryGroup where
  name : String
  hidden : Bool
  deleted : Bool
  categories : List Category
  deriving Repr, DecidableEq

/-! ### Stable sort

Python's `list.sort` is a stable sort; a stable insertion sort computes
the same list for the same (total-preorder) comparison, so it is used as
the model. -/

def insertLe {α : Type} (le : α → α → Bool) (a : α) : List α → List α
  | [] => [a]
  | b :: bs => if le b a then b :: insertLe le a bs else a :: b :: bs

def isort {α : Type} (le : α → α → Bool) : List α → List α
  | [] => []
  | a :: rest => insertLe le a (isort le rest)

/-! ### `analyze_overspending` -/

structure CategoryBalance where
  name : String
  categoryId : String
  amount : ℚ
  deriving Repr, DecidableEq

structure MoveSuggestion where
  fromCategory : String
  fromCategoryId : String
  toCategory : String
  toCategoryId : String
  amount : ℚ
  deriving Repr, DecidableEq

structure OverspendingResult where
  overspent : List CategoryBalance
  sources : List CategoryBalance
  suggestions : List MoveSuggestion
  totalOverspent : ℚ
  deriving Repr, DecidableEq

/-- `_INTERNAL_GROUPS`. -/
def internalGroups : List String := ["Internal Master Category", "Hidden Categories"]

/-- Group filter of the collection loop in `analyze_overspending`. -/
def eligibleGroup (g : CategoryGroup) : Bool :=
  !(internalGroups.contains g.name) && !g.hidden && !g.deleted

/-- The categories the collection loop actually visits. -/
def visibleCategories (groups : List CategoryGroup) : List Category :=
  (groups.filter eligibleGroup).flatMap fun g =>
    g.categories.filter fun c => !c.hidden && !c.deleted

def toBalance (c : Category) : CategoryBalance :=
  { name := c.name, categoryId := c.id, amount := round2 (m2d c.balance) }

/-- The `overspent` list before sorting (`balance < -0.005`). -/
def overspentOf (groups : List CategoryGroup) : List CategoryBalance :=
  ((visibleCategories groups).filter fun c =>
    decide (m2d c.balance < -(5/1000 : ℚ))).map toBalance

/-- The `sources` list before sorting (`balance > 0.005`). -/
def sourcesOf (groups : List CategoryGroup) : List CategoryBalance :=
  ((visibleCategories groups).filter fun c =>
    decide ((5/1000 : ℚ) < m2d c.balance)).map toBalance

/-- `source_remaining = {s.category_id: s.amount for s in sources}`. -/
def buildRemaining (sources : List CategoryBalance) : List (String × ℚ) :=
  sources.foldl (fun m s => dset m s.categoryId s.amount) []

/-- The inner `for source in sources` loop of the suggestion phase, for
one deficit: returns the updated `source_remaining`, the final `needed`,
and the suggestions appended by this deficit (in order). -/
def serviceOne (deficit : CategoryBalance) :
    List CategoryBalance → List (String × ℚ) → ℚ →
    List (String × ℚ) × ℚ × List MoveSuggestion
  | [], remaining, needed => (remaining, needed, [])
  | s :: rest, remaining, needed =>
      let avail := (dget remaining s.categoryId).getD 0
      if avail ≤ 0 then serviceOne deficit rest remaining needed
      else
        let move := min needed avail
        let sug : MoveSuggestion :=
          { fromCategory := s.name
            fromCategoryId := s.categoryId
            toCategory := deficit.name
            toCategoryId := deficit.categoryId
            amount := round2 move }
        let remaining' := dset remaining s.categoryId (avail - move)
        let needed' := needed - move
        if needed' ≤ 5/1000 then (remaining', needed', [sug])
        else
          let r := serviceOne deficit rest remaining' needed'
          (r.1, r.2.1, sug :: r.2.2)

/-- The outer `for deficit in overspent` loop. -/
def serviceAll (sources : List CategoryBalance) :
    List CategoryBalance → List (String × ℚ) →
    List (String × ℚ) × List MoveSuggestion
  | [], remaining => (remaining, [])
  | d :: ds, remaining =>
      let r1 := serviceOne d sources remaining (qabs d.amount)
      let r2 := serviceAll sources ds r1.1
      (r2.1, r1.2.2 ++ r2.2)

/-- `analyze_overspending`. -/
def analyzeOverspending (groups : List CategoryGroup) : OverspendingResult :=
  let overspent := isort (fun x y => decide (x.amount ≤ y.amount)) (overspentOf groups)
  let sources := isort (fun x y => decide (y.amount ≤ x.amount)) (sourcesOf groups)
  let r := serviceAll sources overspent (buildRemaining sources)
  { overspent := overspent
    sources := sources
    suggestions := r.2
    totalOverspent := round2 ((overspent.map fun c => qabs c.amount).sum) }

/-! ### String helpers (models of the Python `str` methods used) -/

/-- `str.lower()` (ASCII case folding). -/
def pyLower (s : String) : String := String.mk (s.data.map Char.toLower)

def isPySpace (c : Char) : Bool :=
  c = ' ' || c = '\t' || c = '\n' || c = '\r'

/-- `str.strip()`. -/
def pyStrip (s : String) : String :=
  String.mk (((s.data.dropWhile isPySpace).reverse.dropWhile isPySpace).reverse)

def listStartsWith : List Char → List Char → Bool
  | _, [] => true
  | [], _ :: _ => false
  | a :: as, b :: bs => a = b && listStartsWith as bs

def listOccurs : List Char → List Char → Bool
  | [], needle => needle.isEmpty
  | a :: as, needle => listStartsWith (a :: as) needle || listOccurs as needle

/-- Python's `needle in hay` substring test. -/
def pyContains (hay needle : String) : Bool := listOccurs hay.data needle.data

/-! ### `analyze_spending_trends` -/

structure Transaction where
  date : String
  amount : ℤ
  categoryName : Option String
  deleted : Bool
  deriving Repr, DecidableEq

structure AnomalyItem where
  categoryName : String
  currentAmount : ℚ
  averageAmount : ℚ
  pctAboveAverage : ℚ
  deriving Repr, DecidableEq

def pad2 (n : ℕ) : String := if n < 10 then "0" ++ toString n else toString n

def pad4 (n : ℕ) : String :=
  if n < 10 then "000" ++ toString n
  else if n < 100 then "00" ++ toString n
  else if n < 1000 then "0" ++ toString n
  else toString n

/-- `strftime("%Y-%m")`. -/
def monthStr (y m : ℕ) : String := pad4 y ++ "-" ++ pad2 m

/-- `(first_of_month - timedelta(days=1)).replace(day=1)` at month level. -/
def prevMonthPair : ℕ × ℕ → ℕ × ℕ
  | (y, m) => if m = 1 then (y - 1, 12) else (y, m - 1)

def monthKeysRev : ℕ × ℕ → ℕ → List String
  | _, 0 => []
  | ym, n + 1 => monthStr ym.1 ym.2 :: monthKeysRev (prevMonthPair ym) n

/-- The `month_keys` list (oldest first), computed from the reference
date's year and month. -/
def monthKeys (y m numMonths : ℕ) : List String :=
  (monthKeysRev (y, m) numMonths).reverse

abbrev Bucket := List (String × ℚ)
abbrev MonthTable := List (String × Bucket)

def initTotals (keys : List String) : MonthTable := keys.map fun k => (k, [])

/-- `cat = t.category_name or "Uncategorized"`. -/
def catNameOf (t : Transaction) : String :=
  match t.categoryName with
  | some c => if c = "" then "Uncategorized" else c
  | none => "Uncategorized"

/-- The optional substring category filter. -/
def matchesFilter (catFilter : Option String) (cat : String) : Bool :=
  match catFilter with
  | some f => if f = "" then true else pyContains (pyLower cat) (pyLower f)
  | none => true

/-- One iteration of the transaction-bucketing loop. -/
def addTxn (catFilter : Option String) (mt : MonthTable) (t : Transaction) : MonthTable :=
  if t.deleted || 0 ≤ t.amount then mt
  else
    let tMonth := t.date.take 7
    match dget mt tMonth with
    | none => mt
    | some bucket =>
        let cat := catNameOf t
        if matchesFilter catFilter cat then
          dset mt tMonth (dset bucket cat ((dget bucket cat).getD 0 + qabs (m2d t.amount)))
        else mt

/-- The unrounded per-category average: per-month totals (missing
buckets count as zero) divided by the number of buckets. -/
def rawAverage (mt : MonthTable) (keys : List String) (cat : String) : ℚ :=
  if keys.isEmpty then 0
  else ((keys.map fun mo => ((dget mt mo).bind fun b => dget b cat).getD 0).sum) / keys.length

/-- The anomaly-detection loop over the current month's bucket,
before the final sort. -/
def anomaliesOf (mt : MonthTable) (keys : List String) (currentMonth : String) :
    List AnomalyItem :=
  match dget mt currentMonth with
  | none => []
  | some bucket =>
      bucket.filterMap fun p =>
        let avg := rawAverage mt keys p.1
        if 0 < avg ∧ avg * (3/2) < p.2 then
          some { categoryName := p.1
                 currentAmount := round2 p.2
                 averageAmount := round2 avg
                 pctAboveAverage := round1 (((p.2 - avg) / avg) * 100) }
        else none

structure SpendingTrendResult where
  monthlyTotals : MonthTable
  averages : String → ℚ
  anomalies : List AnomalyItem
  numMonths : ℕ

/-- `analyze_spending_trends`, with the reference date's year and month
passed explicitly (only `%Y-%m` of the reference date is read).  The
`averages` dict is modelled as a total function on category names. -/
def analyzeSpendingTrends (txns : List Transaction) (numMonths : ℕ)
    (catFilter : Option String) (y m : ℕ) : SpendingTrendResult :=
  let keys := monthKeys y m numMonths
  let current := monthStr y m
  let mt := txns.foldl (addTxn catFilter) (initTotals keys)
  { monthlyTotals := mt.map fun p => (p.1, p.2.map fun q => (q.1, round2 q.2))
    averages := fun c => round2 (rawAverage mt keys c)
    anomalies := isort (fun a b => decide (b.pctAboveAverage ≤ a.pctAboveAverage))
      (anomaliesOf mt keys current)
    numMonths := numMonths }

/-! ### Dates and `forecast_spending` -/

structure Date where
  year : ℕ
  month : ℕ
  day : ℕ
  deriving Repr, DecidableEq

def isLeap (y : ℕ) : Bool := y % 4 = 0 && (y % 100 ≠ 0 || y % 400 = 0)

def daysInMonth (y m : ℕ) : ℕ :=
  if m = 2 then (if isLeap y then 29 else 28)
  else if m = 4 || m = 6 || m = 9 || m = 11 then 30
  else 31

def daysBeforeMonth (y m : ℕ) : ℕ :=
  ((List.range (m - 1)).map fun k => daysInMonth y (k + 1)).sum

def daysBeforeYear (y : ℕ) : ℕ :=
  365 * (y - 1) + (y - 1) / 4 - (y - 1) / 100 + (y - 1) / 400

/-- Proleptic-Gregorian day number (`datetime.date.toordinal`). -/
def toOrdinal (d : Date) : ℤ :=
  (daysBeforeYear d.year + daysBeforeMonth d.year d.month + d.day : ℕ)

/-- `(a - b).days` for dates. -/
def dateSub (a b : Date) : ℤ := toOrdinal a - toOrdinal b

/-- `d - timedelta(days=1)`. -/
def minusOneDay (d : Date) : Date :=
  if 1 < d.day then ⟨d.year, d.month, d.day - 1⟩
  else if 1 < d.month then ⟨d.year, d.month - 1, daysInMonth d.year (d.month - 1)⟩
  else ⟨d.year - 1, 12, 31⟩

structure SpendingForecast where
  categoryName : String
  budget : ℚ
  spentSoFar : ℚ
  daysElapsed : ℤ
  daysRemaining : ℤ
  dailyRate : ℚ
  projectedTotal : ℚ
  willStayInBudget : Bool
  projectedRemaining : ℚ
  deriving Repr, DecidableEq

/-- `forecast_spending`. -/
def forecastSpending (category : Category) (txns : List Transaction) (today : Date) :
    SpendingForecast :=
  let firstOfMonth : Date := { today with day := 1 }
  let daysElapsed : ℤ := dateSub today firstOfMonth + 1
  let lastDay : Date :=
    if today.month = 12 then minusOneDay ⟨today.year + 1, 1, 1⟩
    else minusOneDay ⟨today.year, today.month + 1, 1⟩
  let daysRemaining : ℤ := dateSub lastDay today
  let totalSpentMu : ℤ :=
    ((txns.filter fun t => decide (t.amount < 0) && !t.deleted).map fun t => zabs t.amount).sum
  let spentDollars := m2d totalSpentMu
  let dailyRate : ℚ := if 0 < daysElapsed then spentDollars / (daysElapsed : ℚ) else 0
  let projectedTotal := spentDollars + dailyRate * (daysRemaining : ℚ)
  let budget := m2d category.budgeted
  { categoryName := category.name
    budget := round2 budget
    spentSoFar := round2 spentDollars
    daysElapsed := daysElapsed
    daysRemaining := daysRemaining
    dailyRate := round2 dailyRate
    projectedTotal := round2 projectedTotal
    willStayInBudget := decide (projectedTotal ≤ budget + 5/1000)
    projectedRemaining := round2 (budget - projectedTotal) }

/-! ### `Categorizer.learn_from_transactions` (in-memory mapping table;
the synchronous save to disk is I/O and is outside the model) -/

structure LearnEntry where
  categoryId : String
  categoryName : String
  count : ℤ
  deriving Repr, DecidableEq

structure LearnTxn where
  payeeName : Option String
  categoryId : Option String
  categoryName : Option String
  deriving Repr, DecidableEq

/-- `payee.strip().lower()`. -/
def pyKey (p : String) : String := pyLower (pyStrip p)

/-- One iteration of the `for txn in transactions` loop of
`learn_from_transactions`: skip falsy payee/category, seed a new key at
vote 0, then apply the agree/disagree rule. -/
def learnOne (m : List (String × LearnEntry)) (t : LearnTxn) : List (String × LearnEntry) :=
  if !optTruthy t.payeeName || !optTruthy t.categoryId then m
  else
    let cid := t.categoryId.getD ""
    let cname := t.categoryName.getD ""
    let key := pyKey (t.payeeName.getD "")
    let existing := (dget m key).getD { categoryId := cid, categoryName := cname, count := 0 }
    if cid = existing.categoryId then
      dset m key { existing with count := existing.count + 1 }
    else if existing.count - 1 ≤ 0 then
      dset m key { categoryId := cid, categoryName := cname, count := 1 }
    else
      dset m key { existing with count := existing.count - 1 }

/-- `Categorizer.learn_from_transactions` on the in-memory table. -/
def learnFromTransactions (m : List (String × LearnEntry)) (txns : List LearnTxn) :
    List (String × LearnEntry) :=
  txns.foldl learnOne m

/-! ### Resolvers -/

structure ResolverError where
  entityType : String
  query : String
  deriving Repr, DecidableEq

/-- The category match test of `resolve_category`:
`name.lower() in cat.name.lower() and not cat.hidden and not cat.deleted`. -/
def matchCat (query : String) (c : Category) : Bool :=
  pyContains (pyLower c.name) (pyLower query) && !c.hidden && !c.deleted

/-- The group skip test of `resolve_category` (its local
`_internal_groups` holds the same two names). -/
def skipGroup (g : CategoryGroup) : Bool :=
  internalGroups.contains g.name || g.hidden || g.deleted

def resolveCategoryGo (query : String) : List CategoryGroup → Option Category
  | [] => none
  | g :: gs =>
      if skipGroup g then resolveCategoryGo query gs
      else
        match g.categories.find? (matchCat query) with
        | some c => some c
        | none => resolveCategoryGo query gs

/-- `resolve_category` (raising `ResolverError` is modelled with
`Except.error`). -/
def resolveCategory (groups : List CategoryGroup) (query : String) :
    Except ResolverError Category :=
  match resolveCategoryGo query groups with
  | some c => .ok c
  | none => .error { entityType := "category", query := query }

def inflowName : String := "Inflow: Ready to Assign"

def inflowAliases : List String :=
  ["inflow", "inflow: ready to assign", "ready to assign"]

/-- The nested alias-path loops of `resolve_category_or_inflow`: first
exact-name, non-deleted match over all groups, internal ones included. -/
def findInflow : List CategoryGroup → Option Category
  | [] => none
  | g :: gs =>
      match g.categories.find? (fun c => c.name == inflowName && !c.deleted) with
      | some c => some c
      | none => findInflow gs

/-- `resolve_category_or_inflow`. -/
def resolveCategoryOrInflow (groups : List CategoryGroup) (query : String) :
    Except ResolverError Category :=
  if inflowAliases.contains (pyLower (pyStrip query)) then
    match findInflow groups with
    | some c => .ok c
    | none => resolveCategory groups query
  else resolveCategory groups query

/-! ### `validate_split_amounts` -/

structure SplitItem where
  categoryName : String
  amount : ℚ
  memo : Option String
  deriving Repr, DecidableEq

/-- The data the raised `ValueError` message reports: the split sum, the
claimed total, and their absolute difference. -/
structure SplitError where
  splitSum : ℚ
  total : ℚ
  difference : ℚ
  deriving Repr, DecidableEq

/-- `validate_split_amounts`. -/
def validateSplitAmounts (totalDollars : ℚ) (splits : List SplitItem) :
    Except SplitError Unit :=
  let splitSum := (splits.map fun s => s.amount).sum
  if 1/100 < qabs (splitSum - totalDollars) then
    .error { splitSum := splitSum, total := totalDollars,
             difference := qabs (splitSum - totalDollars) }
  else .ok ()

/-! ## Association-list lemmas -/

/-- The keys of an association list are distinct (true of every table a
Python dict can denote, and preserved by all operations here). -/
def keysNodup {α : Type} (d : List (String × α)) : Prop := (dkeys d).Nodup

instance {α : Type} (d : List (String × α)) : Decidable (keysNodup d) := by
  unfold keysNodup; infer_instance

theorem dget_dset_self {α : Type} (d : List (String × α)) (k : String) (v : α) :
    dget (dset d k v) k = some v := by
  induction d with
  | nil => simp [dget, dset]
  | cons p rest ih =>
      obtain ⟨k', v'⟩ := p
      by_cases h : k' = k <;> simp [dget, dset, h, ih]

theorem dget_dset_ne {α : Type} (d : List (String × α)) (k k' : String) (v : α)
    (h : k ≠ k') : dget (dset d k v) k' = dget d k' := by
  induction d with
  | nil => simp [dget, dset, h]
  | cons p rest ih =>
      obtain ⟨k'', v''⟩ := p
      by_cases h2 : k'' = k
      · subst h2; simp [dget, dset, h]
      · simp [dget, dset, h2, ih]

theorem dget_eq_none_of_not_mem {α : Type} (d : List (String × α)) (k : String)
    (h : k ∉ dkeys d) : dget d k = none := by
  induction d with
  | nil => rfl
  | cons p rest ih =>
      simp only [dkeys, List.map_cons, List.mem_cons, not_or] at h
      have := ih (by simpa [dkeys] using h.2)
      simp [dget, Ne.symm h.1, this]

theorem dget_dpop_ne {α : Type} (d : List (String × α)) (k k' : String)
    (h : k ≠ k') : dget (dpop d k) k' = dget d k' := by
  induction d with
  | nil => rfl
  | cons p rest ih =>
      obtain ⟨k'', v''⟩ := p
      by_cases h2 : k'' = k
      · subst h2; simp [dget, dpop, h]
      · simp [dget, dpop, h2, ih]

theorem dget_dpop_self {α : Type} (d : List (String × α)) (k : String)
    (hd : keysNodup d) : dget (dpop d k) k = none := by
  induction d with
  | nil => rfl
  | cons p rest ih =>
      obtain ⟨k', v'⟩ := p
      simp only [keysNodup, dkeys, List.map_cons, List.nodup_cons] at hd
      by_cases h : k' = k
      · subst h
        simp only [dpop, if_pos rfl]
        exact dget_eq_none_of_not_mem rest k' (by simpa [dkeys] using hd.1)
      · have := ih hd.2
        simp [dpop, dget, h, this]

theorem dpop_sublist {α : Type} (d : List (String × α)) (k : String) :
    (dpop d k).Sublist d := by
  induction d with
  | nil => simp [dpop]
  | cons p rest ih =>
      obtain ⟨k', v'⟩ := p
      by_cases h : k' = k
      · have := List.sublist_cons_self (k', v') rest
        simp [dpop, h, this]
      · simpa [dpop, h] using ih

theorem keysNodup_dpop {α : Type} (d : List (String × α)) (k : String)
    (hd : keysNodup d) : keysNodup (dpop d k) :=
  ((dpop_sublist d k).map Prod.fst).nodup hd

theorem dkeys_dset_mem {α : Type} (d : List (String × α)) (k : String) (v : α)
    (h : k ∈ dkeys d) : dkeys (dset d k v) = dkeys d := by
  induction d with
  | nil => simp [dkeys] at h
  | cons p rest ih =>
      obtain ⟨k', v'⟩ := p
      by_cases h2 : k' = k
      · simp [dset, dkeys, h2]
      · simp only [dkeys, List.map_cons, List.mem_cons] at h
        rcases h with h | h
        · exact absurd h.symm h2
        · have := ih (by simpa [dkeys] using h)
          simp only [dkeys, List.map_cons] at this ⊢
          simp [dset, h2, this]

theorem dkeys_dset_not_mem {α : Type} (d : List (String × α)) (k : String) (v : α)
    (h : k ∉ dkeys d) : dkeys (dset d k v) = dkeys d ++ [k] := by
  induction d with
  | nil => simp [dset, dkeys]
  | cons p rest ih =>
      obtain ⟨k', v'⟩ := p
      simp only [dkeys, List.map_cons, List.mem_cons, not_or] at h
      have := ih (by simpa [dkeys] using h.2)
      simp only [dkeys, List.map_cons] at this ⊢
      simp [dset, Ne.symm h.1, this]

theorem keysNodup_dset {α : Type} (d : List (String × α)) (k : String) (v : α)
    (hd : keysNodup d) : keysNodup (dset d k v) := by
  by_cases h : k ∈ dkeys d
  · unfold keysNodup
    rw [dkeys_dset_mem d k v h]
    exact hd
  · unfold keysNodup
    rw [dkeys_dset_not_mem d k v h]
    simpa [List.nodup_append] using ⟨hd, h⟩

/-! ## C1: delta merge -/

/-- The spec-level effect of one delta item on the entry stored at key
`k`: items not keyed `k` (or unkeyed) leave it alone, a deleted item
keyed `k` removes it, any other item keyed `k` fully replaces it. -/
def keyStep (k : String) (cur : Option DeltaItem) (item : DeltaItem) : Option DeltaItem :=
  match item.key with
  | none => cur
  | some k' =>
      if k' = "" then cur
      else if k' = k then (if item.deleted then none else some item)
      else cur

/-- Modelled from the spec: the then-current server state at key `k`
after a sequence of delta batches, starting from an empty collection —
what a single full non-incremental fetch would report for that key. -/
def specServerLookup (batches : List (List DeltaItem)) (k : String) : Option DeltaItem :=
  batches.flatten.foldl (keyStep k) none

/-- A sequence of incremental merges into a table. -/
def mergeMany (cache : Table) (batches : List (List DeltaItem)) : Table :=
  batches.foldl (fun c b => (mergeDelta c b).1) cache

theorem dget_mergeStep (c : Table) (hc : keysNodup c) (item : DeltaItem) (k : String) :
    dget (mergeStep c item) k = keyStep k (dget c k) item := by
  unfold mergeStep keyStep
  match item.key with
  | none => rfl
  | some k' =>
      by_cases he : k' = ""
      · simp [he]
      · by_cases hk : k' = k
        · subst hk
          by_cases hdel : item.deleted
          · simp [he, hdel, dget_dpop_self c k' hc]
          · simp [he, hdel, dget_dset_self c k' item]
        · by_cases hdel : item.deleted
          · simp [he, hdel, hk, dget_dpop_ne c k' k hk]
          · simp [he, hdel, hk, dget_dset_ne c k' k item hk]

theorem keysNodup_mergeStep (c : Table) (hc : keysNodup c) (item : DeltaItem) :
    keysNodup (mergeStep c item) := by
  unfold mergeStep
  match item.key with
  | none => exact hc
  | some k' =>
      by_cases he : k' = ""
      · simpa [he] using hc
      · by_cases hdel : item.deleted
        · simpa [he, hdel] using keysNodup_dpop c k' hc
        · simpa [he, hdel] using keysNodup_dset c k' item hc

theorem dget_foldl_mergeStep (items : List DeltaItem) :
    ∀ (c : Table), keysNodup c → ∀ k,
      dget (items.foldl mergeStep c) k = items.foldl (keyStep k) (dget c k) := by
  induction items with
  | nil => intro c _ k; rfl
  | cons i rest ih =>
      intro c hc k
      simp only [List.foldl_cons]
      rw [ih (mergeStep c i) (keysNodup_mergeStep c hc i) k, dget_mergeStep c hc i k]

theorem keysNodup_foldl_mergeStep (items : List DeltaItem) :
    ∀ (c : Table), keysNodup c → keysNodup (items.foldl mergeStep c) := by
  induction items with
  | nil => intro c hc; exact hc
  | cons i rest ih =>
      intro c hc
      exact ih (mergeStep c i) (keysNodup_mergeStep c hc i)

/-- C1: `_merge_delta` processes the batch in order — per key, a
deleted item removes the entry, any other keyed item fully replaces it —
and returns the values of the entire current table, never just the
delta; consequently any sequence of incremental merges from an empty
table agrees, key for key, with what a full fetch of the then-current
server state would yield.  (The seeding/merging example of the claim is
included as the final two conjuncts.) -/
theorem C1_delta_merge_equivalence (cache : Table) (items : List DeltaItem)
    (hc : keysNodup cache) :
    ((mergeDelta cache items).2 = dvalues (mergeDelta cache items).1
      ∧ keysNodup (mergeDelta cache items).1
      ∧ ∀ k, dget (mergeDelta cache items).1 k = items.foldl (keyStep k) (dget cache k))
    ∧ (∀ (batches : List (List DeltaItem)) k,
        dget (mergeMany [] batches) k = specServerLookup batches k)
    ∧ (mergeDelta [("A", ⟨some "A", false, 1⟩), ("B", ⟨some "B", false, 7⟩)]
        [⟨some "A", false, 2⟩]).2
        = [⟨some "A", false, 2⟩, ⟨some "B", false, 7⟩]
    ∧ (mergeDelta [("A", ⟨some "A", false, 2⟩), ("B", ⟨some "B", false, 7⟩)]
        [⟨some "B", true, 7⟩]).2
        = [⟨some "A", false, 2⟩] := by
  refine ⟨⟨rfl, keysNodup_foldl_mergeStep items cache hc,
      fun k => dget_foldl_mergeStep items cache hc k⟩, ?_, by decide, by decide⟩
  intro batches k
  unfold specServerLookup
  have main : ∀ (bs : List (List DeltaItem)) (c : Table), keysNodup c →
      dget (mergeMany c bs) k = bs.flatten.foldl (keyStep k) (dget c k) := by
    intro bs
    induction bs with
    | nil => intro c _; rfl
    | cons b rest ih =>
        intro c hcn
        have h1 : keysNodup (mergeDelta c b).1 := keysNodup_foldl_mergeStep b c hcn
        have h2 := ih (mergeDelta c b).1 h1
        have h3 : dget (mergeDelta c b).1 k = b.foldl (keyStep k) (dget c k) :=
          dget_foldl_mergeStep b c hcn k
        calc dget (mergeMany c (b :: rest)) k
            = dget (mergeMany (mergeDelta c b).1 rest) k := rfl
          _ = rest.flatten.foldl (keyStep k) (dget (mergeDelta c b).1 k) := h2
          _ = rest.flatten.foldl (keyStep k) (b.foldl (keyStep k) (dget c k)) := by rw [h3]
          _ = (b :: rest).flatten.foldl (keyStep k) (dget c k) := by
                simp [List.flatten_cons, List.foldl_append]
  simpa [dget] using main batches [] (by simp [keysNodup, dkeys])

/-- C1 witness: the theorem instantiated at the claim's seeded table
and single-item delta batch. -/
theorem C1_delta_merge_equivalence_witness :
    dget (mergeDelta [("A", ⟨some "A", false, 1⟩), ("B", ⟨some "B", false, 7⟩)]
        [⟨some "A", false, 2⟩]).1 "A"
      = [(⟨some "A", false, 2⟩ : DeltaItem)].foldl (keyStep "A")
          (dget [("A", ⟨some "A", false, 1⟩), ("B", ⟨some "B", false, 7⟩)] "A") :=
  (C1_delta_merge_equivalence
    [("A", ⟨some "A", false, 1⟩), ("B", ⟨some "B", false, 7⟩)]
    [⟨some "A", false, 2⟩] (by decide)).1.2.2 "A"

/-! ## C9: split amount validation -/

/-- C9: `validate_split_amounts` accepts exactly when the split sum is
within one cent of the claimed total, and otherwise rejects with an
error naming the split sum, the total and the discrepancy. -/
theorem C9_split_tolerance (totalDollars : ℚ) (splits : List SplitItem) :
    (validateSplitAmounts totalDollars splits = .ok ()
      ↔ qabs ((splits.map fun s => s.amount).sum - totalDollars) ≤ 1/100)
    ∧ (1/100 < qabs ((splits.map fun s => s.amount).sum - totalDollars) →
        validateSplitAmounts totalDollars splits
          = .error { splitSum := (splits.map fun s => s.amount).sum
                     total := totalDollars
                     difference := qabs ((splits.map fun s => s.amount).sum - totalDollars) }) := by
  have hval : validateSplitAmounts totalDollars splits
      = if 1/100 < qabs ((splits.map fun s => s.amount).sum - totalDollars)
        then Except.error { splitSum := (splits.map fun s => s.amount).sum
                            total := totalDollars
                            difference := qabs ((splits.map fun s => s.amount).sum - totalDollars) }
        else Except.ok () := rfl
  rw [hval]
  split_ifs with h
  · exact ⟨⟨fun he => he.elim, fun hle => absurd h (not_lt.mpr hle)⟩,
      fun _ => rfl⟩
  · exact ⟨⟨fun _ => le_of_not_lt h, fun _ => rfl⟩, fun hlt => absurd hlt h⟩

/-- C9 witness: a 2-cent discrepancy (splits 5.00 + 4.98 against a
10.00 total) is rejected with the two sums in the error. -/
theorem C9_split_tolerance_witness :
    (1 : ℚ)/100
        < qabs ((([⟨"a", 5, none⟩, ⟨"b", 249/50, none⟩] : List SplitItem).map
            fun s => s.amount).sum - 10)
      ∧ validateSplitAmounts 10 [⟨"a", 5, none⟩, ⟨"b", 249/50, none⟩] ≠ .ok () :=
  ⟨by with_unfolding_all decide, fun hok =>
    absurd ((C9_split_tolerance 10 [⟨"a", 5, none⟩, ⟨"b", 249/50, none⟩]).1.mp hok)
      (by with_unfolding_all decide)⟩

/-! ## C2: knowledge token attachment and failure atomicity -/

theorem request_sent_eq (st : ClientState) (path : String) (params : List (String × String))
    (useDelta : Bool) (deltaKey : Option String) (outcome : HttpOutcome) :
    (request st path params useDelta deltaKey outcome).sent
      = sentParams st path useDelta params := by
  cases outcome with
  | statusError status errId errName errDetail exnStr => rfl
  | timeout => rfl
  | success data =>
      rcases useDelta with _ | _
      · cases deltaKey <;> rfl
      · cases deltaKey with
        | none => rfl
        | some dk =>
            cases h : dget data.lists dk with
            | none => simp [request, h]
            | some items => simp [request, h]

theorem sentParams_token (st : ClientState) (path : String)
    (params : List (String × String)) (tok : ℤ)
    (htok : dget st.serverKnowledge path = some tok) :
    dget (sentParams st path true params) "last_knowledge_of_server"
      = some (toString tok) := by
  unfold sentParams
  rw [htok]
  simp [dget_dset_self]

/-- C2: with a token stored for the path, every delta-enabled request
attaches it as `last_knowledge_of_server`; an HTTP status error or a
timeout yields the single structured error (status code, machine id,
name, detail) and returns with the client state — stored tokens and
cached tables — exactly as it was before the call. -/
theorem C2_token_monotone_failure_atomic (st : ClientState) (path : String)
    (params : List (String × String)) (deltaKey : Option String) (tok : ℤ)
    (htok : dget st.serverKnowledge path = some tok) :
    (∀ outcome, dget (request st path params true deltaKey outcome).sent
        "last_knowledge_of_server" = some (toString tok))
    ∧ (∀ status errId errName errDetail exnStr,
        (request st path params true deltaKey
            (.statusError status errId errName errDetail exnStr)).state = st
        ∧ (request st path params true deltaKey
            (.statusError status errId errName errDetail exnStr)).result
          = .error { statusCode := status
                     errorId := errId.getD (toString status)
                     name := errName.getD "unknown_error"
                     detail := errDetail.getD exnStr })
    ∧ ((request st path params true deltaKey .timeout).state = st
        ∧ (request st path params true deltaKey .timeout).result
          = .error { statusCode := 408
                     errorId := "timeout"
                     name := "request_timeout"
                     detail := "Request to YNAB API timed out. Please try again." }) := by
  refine ⟨fun outcome => ?_, fun status errId errName errDetail exnStr => ⟨rfl, rfl⟩,
    ⟨rfl, rfl⟩⟩
  rw [request_sent_eq]
  exact sentParams_token st path params tok htok

/-- C2 witness: a client holding token 42 for a path attaches it, and a
timeout on that request leaves the state untouched. -/
theorem C2_token_monotone_failure_atomic_witness :
    dget (request ⟨[("/budgets/b/accounts", 42)], []⟩ "/budgets/b/accounts" [] true
        (some "accounts") .timeout).sent "last_knowledge_of_server" = some "42"
    ∧ (request ⟨[("/budgets/b/accounts", 42)], []⟩ "/budgets/b/accounts" [] true
        (some "accounts") .timeout).state = ⟨[("/budgets/b/accounts", 42)], []⟩ :=
  ⟨(C2_token_monotone_failure_atomic ⟨[("/budgets/b/accounts", 42)], []⟩
      "/budgets/b/accounts" [] (some "accounts") 42 (by decide)).1 .timeout,
   ((C2_token_monotone_failure_atomic ⟨[("/budgets/b/accounts", 42)], []⟩
      "/budgets/b/accounts" [] (some "accounts") 42 (by decide)).2.2).1⟩

/-! ## C10: delete evicts from the whole-collection transactions table -/

/-- C10: after a successful `delete_transaction`, the cached
whole-collection transactions table of that budget has no entry keyed by
the deleted id, the stored knowledge token is untouched, every other
entry of the table is untouched, and every other path's table is
untouched. -/
theorem C10_delete_transaction_evicts (st : ClientState) (bid tid : String)
    (data : ResponseData) (table : Table)
    (htab : dget st.deltaCache ("/budgets/" ++ bid ++ "/transactions") = some table)
    (hnodup : keysNodup table) :
    (deleteTransaction st bid tid (.success data)).2 = .ok ()
    ∧ dget ((dget (deleteTransaction st bid tid (.success data)).1.deltaCache
        ("/budgets/" ++ bid ++ "/transactions")).getD []) tid = none
    ∧ (deleteTransaction st bid tid (.success data)).1.serverKnowledge
        = st.serverKnowledge
    ∧ (∀ k, k ≠ tid →
        dget ((dget (deleteTransaction st bid tid (.success data)).1.deltaCache
            ("/budgets/" ++ bid ++ "/transactions")).getD []) k = dget table k)
    ∧ (∀ p, p ≠ "/budgets/" ++ bid ++ "/transactions" →
        dget (deleteTransaction st bid tid (.success data)).1.deltaCache p
          = dget st.deltaCache p) := by
  have hdel : deleteTransaction st bid tid (.success data)
      = ({ st with
            deltaCache :=
              dset st.deltaCache ("/budgets/" ++ bid ++ "/transactions") (dpop table tid) },
         .ok ()) := by
    unfold deleteTransaction request
    simp [htab]
  rw [hdel]
  refine ⟨rfl, ?_, rfl, fun k hk => ?_, fun p hp => ?_⟩
  · simp only [dget_dset_self]
    exact dget_dpop_self table tid hnodup
  · simp only [dget_dset_self]
    exact dget_dpop_ne table tid k (fun h => hk h.symm)
  · exact dget_dset_ne st.deltaCache ("/budgets/" ++ bid ++ "/transactions") p
      (dpop table tid) (Ne.symm hp)

/-- C10 witness: deleting `t1` from a cached two-entry table removes
exactly that entry. -/
theorem C10_delete_transaction_evicts_witness :
    dget ((dget (deleteTransaction
        ⟨[("/budgets/b/transactions", 7)],
         [("/budgets/b/transactions",
           [("t1", ⟨some "t1", false, 1⟩), ("t2", ⟨some "t2", false, 2⟩)])]⟩
        "b" "t1" (.success ⟨none, []⟩)).1.deltaCache
        ("/budgets/" ++ "b" ++ "/transactions")).getD []) "t1" = none :=
  (C10_delete_transaction_evicts
    ⟨[("/budgets/b/transactions", 7)],
     [("/budgets/b/transactions",
       [("t1", ⟨some "t1", false, 1⟩), ("t2", ⟨some "t2", false, 2⟩)])]⟩
    "b" "t1" ⟨none, []⟩
    [("t1", ⟨some "t1", false, 1⟩), ("t2", ⟨some "t2", false, 2⟩)]
    (by decide) (by decide)).2.1

/-! ## C3: which fetches participate in delta sync -/

theorem request_success_state_cache (st : ClientState) (path : String)
    (params : List (String × String)) (dk : String) (data : ResponseData)
    (items : List DeltaItem) (hd : dget data.lists dk = some items) :
    (request st path params true (some dk) (.success data)).state.deltaCache
      = dset st.deltaCache path (mergeDelta ((dget st.deltaCache path).getD []) items).1
    ∧ (request st path params true (some dk) (.success data)).result
      = .ok { data with
          lists :=
            dset data.lists dk (mergeDelta ((dget st.deltaCache path).getD []) items).2 } := by
  unfold request clientMergeDelta
  cases hk : data.serverKnowledge <;> simp [hd, hk]

theorem request_success_knowledge (st : ClientState) (path : String)
    (params : List (String × String)) (deltaKey : Option String) (data : ResponseData)
    (tok2 : ℤ) (hk : data.serverKnowledge = some tok2) :
    (request st path params true deltaKey (.success data)).state.serverKnowledge
      = dset st.serverKnowledge path tok2 := by
  unfold request clientMergeDelta
  cases deltaKey with
  | none => simp [hk]
  | some k => cases hd : dget data.lists k <;> simp [hk, hd]

/-- A fetch operation participates in delta sync at `path` with response
list field `dk`: it attaches a stored token on every call, merges a
present response list into the path's table and hands back the full
materialized list, and stores a returned `server_knowledge` token. -/
def usesDeltaSync (fetch : ClientState → HttpOutcome → RequestTrace)
    (path : String) (dk : String) : Prop :=
  (∀ st tok outcome, dget st.serverKnowledge path = some tok →
      dget (fetch st outcome).sent "last_knowledge_of_server" = some (toString tok))
  ∧ (∀ st data items, dget data.lists dk = some items →
      (fetch st (.success data)).state.deltaCache
        = dset st.deltaCache path (mergeDelta ((dget st.deltaCache path).getD []) items).1
      ∧ (fetch st (.success data)).result
        = .ok { data with
            lists :=
              dset data.lists dk (mergeDelta ((dget st.deltaCache path).getD []) items).2 })
  ∧ (∀ st data tok2, data.serverKnowledge = some tok2 →
      (fetch st (.success data)).state.serverKnowledge = dset st.serverKnowledge path tok2)

/-- A fetch operation bypasses delta sync: it never sends a
`last_knowledge_of_server` parameter, and a successful call leaves the
client state untouched and returns the response body unmodified. -/
def bypassesDeltaSync (fetch : ClientState → HttpOutcome → RequestTrace) : Prop :=
  (∀ st outcome, dget (fetch st outcome).sent "last_knowledge_of_server" = none)
  ∧ (∀ st data, (fetch st (.success data)).state = st
      ∧ (fetch st (.success data)).result = .ok data)

theorem usesDeltaSync_request (path dk : String) :
    usesDeltaSync (fun st o => request st path [] true (some dk) o) path dk := by
  refine ⟨fun st tok outcome htok => ?_, fun st data items hd => ?_,
    fun st data tok2 hk => ?_⟩
  · rw [request_sent_eq]
    exact sentParams_token st path [] tok htok
  · exact request_success_state_cache st path [] dk data items hd
  · exact request_success_knowledge st path [] (some dk) data tok2 hk

theorem bypassesDeltaSync_request (path : String) (params : List (String × String))
    (deltaKey : Option String)
    (hp : dget params "last_knowledge_of_server" = none) :
    bypassesDeltaSync (fun st o => request st path params false deltaKey o) := by
  refine ⟨fun st outcome => ?_, fun st data => ?_⟩
  · rw [request_sent_eq]
    exact hp
  · cases deltaKey <;> exact ⟨rfl, rfl⟩

/-- C3 counterexample: with token 42 stored for budget `b`'s categories
path, a whole-collection categories fetch sends no
`last_knowledge_of_server` parameter and ignores the response's
`server_knowledge` and items entirely — so the claim that every one of
the five mirrored collections participates in delta sync fails for
categories. -/
theorem C3_counterexample :
    dget (getCategories ⟨[("/budgets/b/categories", 42)], []⟩ "b"
        (.success ⟨some 43, [("category_groups", [⟨some "g1", false, 1⟩])]⟩)).sent
      "last_knowledge_of_server" = none
    ∧ (getCategories ⟨[("/budgets/b/categories", 42)], []⟩ "b"
        (.success ⟨some 43, [("category_groups", [⟨some "g1", false, 1⟩])]⟩)).state
      = ⟨[("/budgets/b/categories", 42)], []⟩ :=
  ⟨rfl, rfl⟩

/-- C3 (amended): of the five mirrored collections, whole-collection
fetches of accounts, payees, months, and transactions participate in
delta sync (token attach, cache merge, full materialized list, token
update), while `get_categories` — despite being a whole-collection
fetch — bypasses it, as does every filtered transaction query. -/
theorem C3_delta_participation (bid : String) :
    usesDeltaSync (fun st o => getAccounts st bid o)
      ("/budgets/" ++ bid ++ "/accounts") "accounts"
    ∧ usesDeltaSync (fun st o => getPayees st bid o)
      ("/budgets/" ++ bid ++ "/payees") "payees"
    ∧ usesDeltaSync (fun st o => getMonths st bid o)
      ("/budgets/" ++ bid ++ "/months") "months"
    ∧ usesDeltaSync (fun st o => getTransactions st bid none none none o)
      ("/budgets/" ++ bid ++ "/transactions") "transactions"
    ∧ bypassesDeltaSync (fun st o => getCategories st bid o)
    ∧ (∀ sinceDate accountId categoryId,
        (optTruthy sinceDate || optTruthy accountId || optTruthy categoryId) = true →
        bypassesDeltaSync (fun st o => getTransactions st bid sinceDate accountId categoryId o)) := by
  refine ⟨usesDeltaSync_request _ _, usesDeltaSync_request _ _, usesDeltaSync_request _ _,
    usesDeltaSync_request _ _, bypassesDeltaSync_request _ [] none rfl, ?_⟩
  intro sinceDate accountId categoryId hf
  have heq : (fun st o => getTransactions st bid sinceDate accountId categoryId o)
      = fun st o => request st
          (if optTruthy accountId then
            "/budgets/" ++ bid ++ "/accounts/" ++ accountId.getD "" ++ "/transactions"
          else if optTruthy categoryId then
            "/budgets/" ++ bid ++ "/categories/" ++ categoryId.getD "" ++ "/transactions"
          else "/budgets/" ++ bid ++ "/transactions")
          (match sinceDate with
            | some s => if s = "" then [] else [("since_date", s)]
            | none => [])
          false none o := by
    funext st o
    simp only [getTransactions, hf, Bool.not_true, if_true]
  rw [heq]
  refine bypassesDeltaSync_request _ _ none ?_
  cases sinceDate with
  | none => rfl
  | some s =>
      by_cases hs : s = ""
      · simp [hs, dget]
      · simp [hs, dget]

/-- C3 witness: the amended theorem instantiated — an accounts fetch
from a client holding token 42 attaches it even on a timed-out call. -/
theorem C3_delta_participation_witness :
    dget (getAccounts ⟨[("/budgets/b/accounts", 42)], []⟩ "b" .timeout).sent
      "last_knowledge_of_server" = some "42" :=
  ((C3_delta_participation "b").1).1 ⟨[("/budgets/b/accounts", 42)], []⟩ 42 .timeout
    (by decide)

/-! ## C6: learning decay and flip -/

/-- C6: an observation agreeing with the stored category increments its
vote count; a disagreeing observation decrements it, and once the count
falls to zero or below the stored category flips to the observed one
with the count reset to 1.  Starting from an empty store, two
HEB→Groceries observations followed by three HEB→Dining observations
leave "heb" mapped to Dining (final conjunct). -/
theorem C6_learning_decay_flip (m : List (String × LearnEntry)) (p cid cnameNew : String)
    (c nm : String) (n : ℤ) (hp : p ≠ "") (hcid : cid ≠ "")
    (hstored : dget m (pyKey p) = some ⟨c, nm, n⟩) :
    (cid = c →
      dget (learnOne m ⟨some p, some cid, some cnameNew⟩) (pyKey p) = some ⟨c, nm, n + 1⟩)
    ∧ (cid ≠ c → n - 1 ≤ 0 →
      dget (learnOne m ⟨some p, some cid, some cnameNew⟩) (pyKey p) = some ⟨cid, cnameNew, 1⟩)
    ∧ (cid ≠ c → 0 < n - 1 →
      dget (learnOne m ⟨some p, some cid, some cnameNew⟩) (pyKey p) = some ⟨c, nm, n - 1⟩)
    ∧ dget (learnFromTransactions []
        [⟨some "HEB", some "Groceries", some "Groceries"⟩,
         ⟨some "HEB", some "Groceries", some "Groceries"⟩,
         ⟨some "HEB", some "Dining", some "Dining"⟩,
         ⟨some "HEB", some "Dining", some "Dining"⟩,
         ⟨some "HEB", some "Dining", some "Dining"⟩]) "heb"
      = some ⟨"Dining", "Dining", 2⟩ := by
  have hbody : learnOne m ⟨some p, some cid, some cnameNew⟩
      = (if cid = c then dset m (pyKey p) ⟨c, nm, n + 1⟩
         else if n - 1 ≤ 0 then dset m (pyKey p) ⟨cid, cnameNew, 1⟩
         else dset m (pyKey p) ⟨c, nm, n - 1⟩) := by
    unfold learnOne
    simp only [optTruthy, Option.getD_some]
    rw [if_neg (by simp [hp, hcid]), hstored]
    simp only [Option.getD_some]
  refine ⟨fun hceq => ?_, fun hcne hle => ?_, fun hcne hgt => ?_, by decide⟩
  · rw [hbody, if_pos hceq, dget_dset_self]
  · rw [hbody, if_neg hcne, if_pos hle, dget_dset_self]
  · rw [hbody, if_neg hcne, if_neg (not_le.mpr hgt), dget_dset_self]

/-- C6 witness: a stored Groceries entry at vote 1 flips to Dining with
count reset to 1 on a disagreeing HEB observation. -/
theorem C6_learning_decay_flip_witness :
    dget (learnOne [("heb", ⟨"Groceries", "Groceries", 1⟩)]
        ⟨some "HEB", some "Dining", some "Dining"⟩) (pyKey "HEB")
      = some ⟨"Dining", "Dining", 1⟩ :=
  (C6_learning_decay_flip [("heb", ⟨"Groceries", "Groceries", 1⟩)] "HEB" "Dining" "Dining"
    "Groceries" "Groceries" 1 (by decide) (by decide) (by decide)).2.1
    (by decide) (by decide)

/-! ## C7: forecast day arithmetic -/

theorem forecast_daysElapsed (c : Category) (txns : List Transaction) (today : Date) :
    (forecastSpending c txns today).daysElapsed = (today.day : ℤ) := by
  simp only [forecastSpending]
  unfold dateSub toOrdinal
  simp only []
  push_cast
  ring

theorem forecast_daysRemaining (c : Category) (txns : List Transaction) (today : Date)
    (hm1 : 1 ≤ today.month) :
    (forecastSpending c txns today).daysRemaining
      = (daysInMonth today.year today.month : ℤ) - today.day := by
  simp only [forecastSpending]
  by_cases h12 : today.month = 12
  · have hlast : (if today.month = 12 then minusOneDay ⟨today.year + 1, 1, 1⟩
        else minusOneDay ⟨today.year, today.month + 1, 1⟩)
        = (⟨today.year, 12, 31⟩ : Date) := by
      rw [if_pos h12]
      unfold minusOneDay
      norm_num
    rw [hlast, h12]
    unfold dateSub toOrdinal daysInMonth
    rw [h12]
    push_cast
    norm_num
  · have hlast : (if today.month = 12 then minusOneDay ⟨today.year + 1, 1, 1⟩
        else minusOneDay ⟨today.year, today.month + 1, 1⟩)
        = (⟨today.year, today.month, daysInMonth today.year today.month⟩ : Date) := by
      rw [if_neg h12]
      unfold minusOneDay
      have h1 : ¬ (1 : ℕ) < 1 := by norm_num
      have h2 : 1 < today.month + 1 := by omega
      simp only [h1, if_false, h2, if_true]
      norm_num
    rw [hlast]
    unfold dateSub toOrdinal
    simp only []
    push_cast
    ring

theorem forecast_projected_of_rem_zero (c : Category) (txns : List Transaction)
    (today : Date) (h : (forecastSpending c txns today).daysRemaining = 0) :
    (forecastSpending c txns today).projectedTotal
      = (forecastSpending c txns today).spentSoFar := by
  simp only [forecastSpending] at h ⊢
  rw [h]
  norm_num

/-- C7: `forecast_spending` computes `days_elapsed` as (reference date −
first of month) + 1 = the day-of-month, and `days_remaining` as (last
calendar day of the month − reference date), correct across the
December→January rollover and in leap years; on December 31st
`days_remaining = 0` and the projected total equals the spent-so-far;
on January 1st `days_elapsed = 1` and `days_remaining = 30`. -/
theorem C7_forecast_month_boundaries (c : Category) (txns : List Transaction)
    (today : Date) (hm1 : 1 ≤ today.month) :
    (forecastSpending c txns today).daysElapsed = (today.day : ℤ)
    ∧ (forecastSpending c txns today).daysRemaining
      = (daysInMonth today.year today.month : ℤ) - today.day
    ∧ (today.month = 12 → today.day = 31 →
        (forecastSpending c txns today).daysRemaining = 0
        ∧ (forecastSpending c txns today).projectedTotal
          = (forecastSpending c txns today).spentSoFar)
    ∧ (today.month = 1 → today.day = 1 →
        (forecastSpending c txns today).daysElapsed = 1
        ∧ (forecastSpending c txns today).daysRemaining = 30) := by
  have he := forecast_daysElapsed c txns today
  have hr := forecast_daysRemaining c txns today hm1
  refine ⟨he, hr, fun h12 h31 => ?_, fun h1 hd1 => ?_⟩
  · have hz : (forecastSpending c txns today).daysRemaining = 0 := by
      rw [hr, h12, h31]
      unfold daysInMonth
      norm_num
    exact ⟨hz, forecast_projected_of_rem_zero c txns today hz⟩
  · constructor
    · rw [he, hd1]
      norm_num
    · rw [hr, h1, hd1]
      unfold daysInMonth
      norm_num

/-- C7 witness: December 31 2025 gives zero days remaining and
projected-equals-spent; January 1 2025 gives 1 elapsed and 30 remaining;
February 10 2024 (leap year) gives 29 − 10 = 19 remaining. -/
theorem C7_forecast_month_boundaries_witness :
    ((forecastSpending ⟨"c", "C", 0, 0, 0, false, false⟩ [] ⟨2025, 12, 31⟩).daysRemaining = 0
      ∧ (forecastSpending ⟨"c", "C", 0, 0, 0, false, false⟩ [] ⟨2025, 12, 31⟩).projectedTotal
        = (forecastSpending ⟨"c", "C", 0, 0, 0, false, false⟩ [] ⟨2025, 12, 31⟩).spentSoFar)
    ∧ ((forecastSpending ⟨"c", "C", 0, 0, 0, false, false⟩ [] ⟨2025, 1, 1⟩).daysElapsed = 1
      ∧ (forecastSpending ⟨"c", "C", 0, 0, 0, false, false⟩ [] ⟨2025, 1, 1⟩).daysRemaining = 30)
    ∧ (forecastSpending ⟨"c", "C", 0, 0, 0, false, false⟩ [] ⟨2024, 2, 10⟩).daysRemaining
      = (daysInMonth 2024 2 : ℤ) - 10 :=
  ⟨(C7_forecast_month_boundaries ⟨"c", "C", 0, 0, 0, false, false⟩ [] ⟨2025, 12, 31⟩
      (by norm_num)).2.2.1 rfl rfl,
   (C7_forecast_month_boundaries ⟨"c", "C", 0, 0, 0, false, false⟩ [] ⟨2025, 1, 1⟩
      (by norm_num)).2.2.2 rfl rfl,
   (C7_forecast_month_boundaries ⟨"c", "C", 0, 0, 0, false, false⟩ [] ⟨2024, 2, 10⟩
      (by norm_num)).2.1⟩

/-! ## C8: inflow alias resolution -/

theorem findInflow_spec (groups : List CategoryGroup) (c : Category)
    (h : findInflow groups = some c) : c.name = inflowName ∧ c.deleted = false := by
  induction groups with
  | nil => exact absurd h (by simp [findInflow])
  | cons g gs ih =>
      unfold findInflow at h
      cases hf : g.categories.find? (fun c => c.name == inflowName && !c.deleted) with
      | none =>
          rw [hf] at h
          exact ih h
      | some c' =>
          rw [hf] at h
          have hp := List.find?_some hf
          cases h
          simp only [Bool.and_eq_true, beq_iff_eq, Bool.not_eq_true'] at hp
          exact hp

/-- C8: when the trimmed, lower-cased query equals one of the inflow
aliases and a non-deleted category named "Inflow: Ready to Assign"
exists in any group (internal ones included), it is returned; when the
query — including any query merely containing "inflow" as a substring —
is not an exact alias, resolution falls through to ordinary
`resolve_category`; and an alias query with no inflow category present
also falls through. -/
theorem C8_inflow_alias_exactness (groups : List CategoryGroup) (q : String) :
    (inflowAliases.contains (pyLower (pyStrip q)) = true →
      (∀ c, findInflow groups = some c →
        resolveCategoryOrInflow groups q = .ok c
        ∧ c.name = inflowName ∧ c.deleted = false)
      ∧ (findInflow groups = none →
        resolveCategoryOrInflow groups q = resolveCategory groups q))
    ∧ (inflowAliases.contains (pyLower (pyStrip q)) = false →
      resolveCategoryOrInflow groups q = resolveCategory groups q) := by
  constructor
  · intro halias
    constructor
    · intro c hfind
      refine ⟨?_, findInflow_spec groups c hfind⟩
      unfold resolveCategoryOrInflow
      rw [if_pos halias, hfind]
    · intro hnone
      unfold resolveCategoryOrInflow
      rw [if_pos halias, hnone]
  · intro hnot
    unfold resolveCategoryOrInflow
    rw [if_neg (by rw [hnot]; exact Bool.false_ne_true)]

/-- C8 witness: in a budget whose internal master group holds the inflow
category, the alias query " Ready To Assign " resolves to it, while the
non-alias query "cash inflow" falls through to ordinary resolution. -/
theorem C8_inflow_alias_exactness_witness :
    resolveCategoryOrInflow
        [⟨"Internal Master Category", false, false,
          [⟨"in1", "Inflow: Ready to Assign", 0, 0, 0, false, false⟩]⟩,
         ⟨"Food", false, false,
          [⟨"c1", "Cash Inflow Tracker", 0, 0, 0, false, false⟩]⟩]
        " Ready To Assign "
      = .ok ⟨"in1", "Inflow: Ready to Assign", 0, 0, 0, false, false⟩
    ∧ resolveCategoryOrInflow
        [⟨"Internal Master Category", false, false,
          [⟨"in1", "Inflow: Ready to Assign", 0, 0, 0, false, false⟩]⟩,
         ⟨"Food", false, false,
          [⟨"c1", "Cash Inflow Tracker", 0, 0, 0, false, false⟩]⟩]
        "cash inflow"
      = resolveCategory
        [⟨"Internal Master Category", false, false,
          [⟨"in1", "Inflow: Ready to Assign", 0, 0, 0, false, false⟩]⟩,
         ⟨"Food", false, false,
          [⟨"c1", "Cash Inflow Tracker", 0, 0, 0, false, false⟩]⟩]
        "cash inflow" :=
  ⟨((C8_inflow_alias_exactness
      [⟨"Internal Master Category", false, false,
        [⟨"in1", "Inflow: Ready to Assign", 0, 0, 0, false, false⟩]⟩,
       ⟨"Food", false, false,
        [⟨"c1", "Cash Inflow Tracker", 0, 0, 0, false, false⟩]⟩]
      " Ready To Assign ").1 (by decide)).1
        ⟨"in1", "Inflow: Ready to Assign", 0, 0, 0, false, false⟩ (by decide) |>.1,
   (C8_inflow_alias_exactness
      [⟨"Internal Master Category", false, false,
        [⟨"in1", "Inflow: Ready to Assign", 0, 0, 0, false, false⟩]⟩,
       ⟨"Food", false, false,
        [⟨"c1", "Cash Inflow Tracker", 0, 0, 0, false, false⟩]⟩]
      "cash inflow").2 (by decide)⟩

/-! ## Generic list lemmas for the analyzers -/

theorem dget_some_mem {α : Type} (d : List (String × α)) (k : String) (v : α)
    (h : dget d k = some v) : (k, v) ∈ d := by
  induction d with
  | nil => exact absurd h (by simp [dget])
  | cons p rest ih =>
      obtain ⟨k', v'⟩ := p
      by_cases hk : k' = k
      · subst hk
        simp [dget] at h
        simp [h]
      · simp only [dget, if_neg hk] at h
        exact List.mem_cons_of_mem _ (ih h)

theorem dget_of_mem_nodup {α : Type} (d : List (String × α)) (k : String) (v : α)
    (hd : keysNodup d) (h : (k, v) ∈ d) : dget d k = some v := by
  induction d with
  | nil => cases h
  | cons p rest ih =>
      obtain ⟨k', v'⟩ := p
      simp only [keysNodup, dkeys, List.map_cons, List.nodup_cons] at hd
      rcases List.mem_cons.mp h with h1 | h1
      · rw [Prod.mk.injEq] at h1
        rw [h1.1, h1.2]
        simp [dget]
      · have hne : k' ≠ k := by
          intro he
          subst he
          exact hd.1 (by simpa [dkeys] using List.mem_map_of_mem Prod.fst h1)
        simpa [dget, hne] using ih hd.2 h1

theorem mem_insertLe {α : Type} (le : α → α → Bool) (a x : α) (l : List α) :
    x ∈ insertLe le a l ↔ x = a ∨ x ∈ l := by
  induction l with
  | nil => simp [insertLe]
  | cons b bs ih =>
      by_cases h : le b a = true
      · simp only [insertLe, if_pos h, List.mem_cons, ih]
        tauto
      · simp only [insertLe, if_neg h, List.mem_cons]

theorem mem_isort {α : Type} (le : α → α → Bool) (x : α) (l : List α) :
    x ∈ isort le l ↔ x ∈ l := by
  induction l with
  | nil => simp [isort]
  | cons a as ih =>
      simp only [isort, mem_insertLe, List.mem_cons, ih]

theorem sorted_insertLe {α : Type} (le : α → α → Bool)
    (htot : ∀ a b, le a b = true ∨ le b a = true)
    (htrans : ∀ a b c, le a b = true → le b c = true → le a c = true)
    (a : α) (l : List α) (hl : List.Sorted (fun x y => le x y = true) l) :
    List.Sorted (fun x y => le x y = true) (insertLe le a l) := by
  induction l with
  | nil => simp [insertLe]
  | cons b bs ih =>
      rw [List.sorted_cons] at hl
      by_cases h : le b a = true
      · rw [insertLe, if_pos h, List.sorted_cons]
        refine ⟨fun x hx => ?_, ih hl.2⟩
        rcases (mem_insertLe le a x bs).mp hx with rfl | hx
        · exact h
        · exact hl.1 x hx
      · rw [insertLe, if_neg h, List.sorted_cons]
        have hab : le a b = true := (htot a b).resolve_right (fun hc => h hc)
        refine ⟨fun x hx => ?_, List.sorted_cons.mpr hl⟩
        rcases List.mem_cons.mp hx with rfl | hx
        · exact hab
        · exact htrans a b x hab (hl.1 x hx)

theorem sorted_isort {α : Type} (le : α → α → Bool)
    (htot : ∀ a b, le a b = true ∨ le b a = true)
    (htrans : ∀ a b c, le a b = true → le b c = true → le a c = true)
    (l : List α) : List.Sorted (fun x y => le x y = true) (isort le l) := by
  induction l with
  | nil => simp [isort]
  | cons a as ih => exact sorted_insertLe le htot htrans a (isort le as) ih

/-! ## C5: spending-trend averages and anomalies -/

theorem monthKeysRev_length : ∀ (ym : ℕ × ℕ) (n : ℕ), (monthKeysRev ym n).length = n := by
  intro ym n
  induction n generalizing ym with
  | zero => rfl
  | succ k ih => simp [monthKeysRev, ih]

theorem monthKeys_length (y m n : ℕ) : (monthKeys y m n).length = n := by
  unfold monthKeys
  rw [List.length_reverse, monthKeysRev_length]

/-- Invariant: every bucket stored in a month table has distinct
category keys. -/
def bucketsNodup (mt : MonthTable) : Prop :=
  ∀ mo b, dget mt mo = some b → keysNodup b

theorem bucketsNodup_init (keys : List String) : bucketsNodup (initTotals keys) := by
  intro mo b hb
  induction keys with
  | nil => exact absurd hb (by simp [initTotals, dget])
  | cons k ks ih =>
      simp only [initTotals, List.map_cons, dget] at hb
      by_cases hk : k = mo
      · simp only [if_pos hk, Option.some.injEq] at hb
        subst hb
        simp [keysNodup, dkeys]
      · simp only [if_neg hk] at hb
        exact ih hb

theorem bucketsNodup_addTxn (catFilter : Option String) (mt : MonthTable)
    (t : Transaction) (h : bucketsNodup mt) : bucketsNodup (addTxn catFilter mt t) := by
  unfold addTxn
  by_cases h1 : (t.deleted || decide (0 ≤ t.amount)) = true
  · simpa [h1] using h
  · rw [if_neg h1]
    cases hcur : dget mt (t.date.take 7) with
    | none => simpa [hcur] using h
    | some bucket =>
        simp only [hcur]
        by_cases hf : matchesFilter catFilter (catNameOf t) = true
        · rw [if_pos hf]
          intro mo b hb
          by_cases hmo : t.date.take 7 = mo
          · subst hmo
            rw [dget_dset_self] at hb
            cases hb
            exact keysNodup_dset _ _ _ (h _ _ hcur)
          · rw [dget_dset_ne _ _ _ _ hmo] at hb
            exact h _ _ hb
        · rw [if_neg hf]
          exact h

theorem bucketsNodup_foldl (catFilter : Option String) (txns : List Transaction) :
    ∀ mt : MonthTable, bucketsNodup mt →
      bucketsNodup (txns.foldl (addTxn catFilter) mt) := by
  induction txns with
  | nil => intro mt h; exact h
  | cons t rest ih =>
      intro mt h
      exact ih (addTxn catFilter mt t) (bucketsNodup_addTxn catFilter mt t h)

/-- C5: with `mt` the month-bucketed outflow totals and `keys` the
`num_months` month keys, every category's (unrounded) average is the sum
of its per-month totals — zero for month buckets without activity —
divided by `num_months`, and the reported average is its 2-decimal
rounding; a category appears among the anomalies exactly when it has a
current-month total that strictly exceeds 1.5 times a strictly positive
average (so a category at exactly 1.5× its average is not anomalous);
and the anomaly list is sorted by percentage-above-average
descending. -/
theorem C5_trend_anomaly_rule (txns : List Transaction) (numMonths : ℕ)
    (catFilter : Option String) (y m : ℕ) (keys : List String) (mt : MonthTable)
    (hnm : 1 ≤ numMonths)
    (hkeys : keys = monthKeys y m numMonths)
    (hmt : mt = txns.foldl (addTxn catFilter) (initTotals keys)) :
    (∀ cat, rawAverage mt keys cat
        = ((keys.map fun mo => ((dget mt mo).bind fun b => dget b cat).getD 0).sum) / numMonths
      ∧ (analyzeSpendingTrends txns numMonths catFilter y m).averages cat
        = round2 (rawAverage mt keys cat))
    ∧ (∀ cat, ((analyzeSpendingTrends txns numMonths catFilter y m).anomalies.any
          fun a => a.categoryName == cat) = true
        ↔ ∃ amt, dget ((dget mt (monthStr y m)).getD []) cat = some amt
            ∧ 0 < rawAverage mt keys cat
            ∧ rawAverage mt keys cat * (3/2) < amt)
    ∧ List.Sorted (fun a b => b.pctAboveAverage ≤ a.pctAboveAverage)
        (analyzeSpendingTrends txns numMonths catFilter y m).anomalies := by
  subst hkeys hmt
  have hnodup : bucketsNodup
      (txns.foldl (addTxn catFilter) (initTotals (monthKeys y m numMonths))) :=
    bucketsNodup_foldl catFilter txns _ (bucketsNodup_init (monthKeys y m numMonths))
  have hne : ¬ (monthKeys y m numMonths).isEmpty = true := by
    rw [List.isEmpty_iff]
    intro h
    have := monthKeys_length y m numMonths
    rw [h] at this
    simp at this
    omega
  have hano : (analyzeSpendingTrends txns numMonths catFilter y m).anomalies
      = isort (fun a b => decide (b.pctAboveAverage ≤ a.pctAboveAverage))
          (anomaliesOf (txns.foldl (addTxn catFilter) (initTotals (monthKeys y m numMonths)))
            (monthKeys y m numMonths) (monthStr y m)) := rfl
  refine ⟨fun cat => ⟨?_, rfl⟩, fun cat => ?_, ?_⟩
  · unfold rawAverage
    rw [if_neg hne, monthKeys_length]
  · rw [hano, List.any_eq_true]
    constructor
    · rintro ⟨a, ha, hname⟩
      rw [mem_isort] at ha
      unfold anomaliesOf at ha
      cases hcur : dget (txns.foldl (addTxn catFilter) (initTotals (monthKeys y m numMonths)))
          (monthStr y m) with
      | none =>
          rw [hcur] at ha
          cases ha
      | some bucket =>
          rw [hcur] at ha
          rw [List.mem_filterMap] at ha
          obtain ⟨p, hp, hfp⟩ := ha
          simp only at hfp
          by_cases hc : 0 < rawAverage (txns.foldl (addTxn catFilter)
                (initTotals (monthKeys y m numMonths))) (monthKeys y m numMonths) p.1
              ∧ rawAverage (txns.foldl (addTxn catFilter)
                (initTotals (monthKeys y m numMonths))) (monthKeys y m numMonths) p.1
                * (3/2) < p.2
          · rw [if_pos hc] at hfp
            rw [Option.some.injEq] at hfp
            subst hfp
            have hcat : p.1 = cat := by simpa using hname
            subst hcat
            refine ⟨p.2, ?_, hc.1, hc.2⟩
            rw [Option.getD_some]
            exact dget_of_mem_nodup bucket p.1 p.2 (hnodup _ _ hcur) hp
          · rw [if_neg hc] at hfp
            cases hfp
    · rintro ⟨amt, hget, hpos, hlt⟩
      cases hcur : dget (txns.foldl (addTxn catFilter) (initTotals (monthKeys y m numMonths)))
          (monthStr y m) with
      | none =>
          rw [hcur, Option.getD_none] at hget
          simp [dget] at hget
      | some bucket =>
          rw [hcur, Option.getD_some] at hget
          refine ⟨{ categoryName := cat, currentAmount := round2 amt
                    averageAmount := round2 (rawAverage (txns.foldl (addTxn catFilter)
                      (initTotals (monthKeys y m numMonths))) (monthKeys y m numMonths) cat)
                    pctAboveAverage := round1 (((amt - rawAverage (txns.foldl (addTxn catFilter)
                      (initTotals (monthKeys y m numMonths))) (monthKeys y m numMonths) cat)
                      / rawAverage (txns.foldl (addTxn catFilter)
                      (initTotals (monthKeys y m numMonths))) (monthKeys y m numMonths) cat)
                      * 100) }, ?_, by simp⟩
          rw [mem_isort]
          unfold anomaliesOf
          rw [hcur, List.mem_filterMap]
          refine ⟨(cat, amt), dget_some_mem bucket cat amt hget, ?_⟩
          simp only
          rw [if_pos ⟨hpos, hlt⟩]
  · rw [hano]
    have htot : ∀ a b : AnomalyItem,
        decide (b.pctAboveAverage ≤ a.pctAboveAverage) = true
        ∨ decide (a.pctAboveAverage ≤ b.pctAboveAverage) = true := by
      intro a b
      rcases le_total b.pctAboveAverage a.pctAboveAverage with h | h
      · exact Or.inl (decide_eq_true h)
      · exact Or.inr (decide_eq_true h)
    have htrans : ∀ a b c : AnomalyItem,
        decide (b.pctAboveAverage ≤ a.pctAboveAverage) = true →
        decide (c.pctAboveAverage ≤ b.pctAboveAverage) = true →
        decide (c.pctAboveAverage ≤ a.pctAboveAverage) = true := by
      intro a b c hab hbc
      exact decide_eq_true (le_trans (of_decide_eq_true hbc) (of_decide_eq_true hab))
    exact (sorted_isort _ htot htrans _).imp fun h => of_decide_eq_true h

/-- C5 witness: the anomaly-rule iff instantiated on a concrete history
whose category sits exactly at 1.5× its average in the current month. -/
theorem C5_trend_anomaly_rule_witness :
    1 ≤ 3
    ∧ (((analyzeSpendingTrends
          [⟨"2025-08-05", -75000, some "Dining", false⟩,
           ⟨"2025-09-05", -75000, some "Dining", false⟩,
           ⟨"2025-10-05", -150000, some "Dining", false⟩] 3 none 2025 10).anomalies.any
            fun a => a.categoryName == "Dining") = true
        ↔ ∃ amt,
            dget ((dget ([⟨"2025-08-05", -75000, some "Dining", false⟩,
                ⟨"2025-09-05", -75000, some "Dining", false⟩,
                ⟨"2025-10-05", -150000, some "Dining", false⟩].foldl (addTxn none)
                  (initTotals (monthKeys 2025 10 3))) (monthStr 2025 10)).getD [])
              "Dining" = some amt
            ∧ 0 < rawAverage ([⟨"2025-08-05", -75000, some "Dining", false⟩,
                ⟨"2025-09-05", -75000, some "Dining", false⟩,
                ⟨"2025-10-05", -150000, some "Dining", false⟩].foldl (addTxn none)
                  (initTotals (monthKeys 2025 10 3))) (monthKeys 2025 10 3) "Dining"
            ∧ rawAverage ([⟨"2025-08-05", -75000, some "Dining", false⟩,
                ⟨"2025-09-05", -75000, some "Dining", false⟩,
                ⟨"2025-10-05", -150000, some "Dining", false⟩].foldl (addTxn none)
                  (initTotals (monthKeys 2025 10 3))) (monthKeys 2025 10 3) "Dining"
                * (3/2) < amt) :=
  ⟨by norm_num,
   (C5_trend_anomaly_rule
      [⟨"2025-08-05", -75000, some "Dining", false⟩,
       ⟨"2025-09-05", -75000, some "Dining", false⟩,
       ⟨"2025-10-05", -150000, some "Dining", false⟩] 3 none 2025 10
      (monthKeys 2025 10 3)
      ([⟨"2025-08-05", -75000, some "Dining", false⟩,
        ⟨"2025-09-05", -75000, some "Dining", false⟩,
        ⟨"2025-10-05", -150000, some "Dining", false⟩].foldl (addTxn none)
          (initTotals (monthKeys 2025 10 3)))
      (by norm_num) rfl rfl).2.1 "Dining"⟩

/-! ## C4: numeric helper lemmas (cent-grid arithmetic) -/

/-- A rational lying on the cent grid (an exact 2-decimal value). -/
def isCent (x : ℚ) : Prop := ∃ z : ℤ, x = z / 100

theorem isCent_zero : isCent 0 := ⟨0, by norm_num⟩

theorem isCent_sub {x y : ℚ} (hx : isCent x) (hy : isCent y) : isCent (x - y) := by
  obtain ⟨a, ha⟩ := hx
  obtain ⟨b, hb⟩ := hy
  exact ⟨a - b, by rw [ha, hb]; push_cast; ring⟩

theorem isCent_neg {x : ℚ} (hx : isCent x) : isCent (-x) := by
  obtain ⟨a, ha⟩ := hx
  exact ⟨-a, by rw [ha]; push_cast; ring⟩

theorem isCent_min {x y : ℚ} (hx : isCent x) (hy : isCent y) : isCent (min x y) := by
  rcases min_choice x y with h | h <;> rw [h] <;> assumption

theorem isCent_qabs {x : ℚ} (hx : isCent x) : isCent (qabs x) := by
  unfold qabs
  split_ifs
  · exact isCent_neg hx
  · exact hx

theorem rhe_intCast (z : ℤ) : rhe (z : ℚ) = z := by
  unfold rhe
  rw [Int.floor_intCast]
  norm_num

theorem rhe_cases (y : ℚ) : rhe y = ⌊y⌋ ∨ rhe y = ⌊y⌋ + 1 := by
  simp only [rhe]
  split_ifs <;> simp

theorem round2_eq_self {x : ℚ} (h : isCent x) : round2 x = x := by
  obtain ⟨z, hz⟩ := h
  unfold round2 pyRound
  have h100 : x * 10 ^ 2 = (z : ℚ) := by
    rw [hz]
    ring
  rw [h100, rhe_intCast, hz]
  norm_num

theorem round2_nonneg {x : ℚ} (h : 0 ≤ x) : 0 ≤ round2 x := by
  unfold round2 pyRound
  have hf : (0 : ℤ) ≤ ⌊x * 10 ^ 2⌋ := Int.floor_nonneg.mpr (by positivity)
  have := rhe_cases (x * 10 ^ 2)
  rcases this with h2 | h2 <;> rw [h2] <;> positivity

theorem isCent_round2 (x : ℚ) : isCent (round2 x) := by
  refine ⟨rhe (x * 10 ^ 2), ?_⟩
  unfold round2 pyRound
  norm_num

/-! ## C4: suggestion-sum helpers -/

def sumAmounts (sugs : List MoveSuggestion) : ℚ := (sugs.map fun s => s.amount).sum

def sumFrom (k : String) (sugs : List MoveSuggestion) : ℚ :=
  ((sugs.filter fun s => s.fromCategoryId == k).map fun s => s.amount).sum

def sumTo (k : String) (sugs : List MoveSuggestion) : ℚ :=
  ((sugs.filter fun s => s.toCategoryId == k).map fun s => s.amount).sum

theorem sumAmounts_nil : sumAmounts [] = 0 := rfl

theorem sumAmounts_cons (x : MoveSuggestion) (xs : List MoveSuggestion) :
    sumAmounts (x :: xs) = x.amount + sumAmounts xs := by
  simp [sumAmounts]

theorem sumAmounts_append (xs ys : List MoveSuggestion) :
    sumAmounts (xs ++ ys) = sumAmounts xs + sumAmounts ys := by
  simp [sumAmounts]

theorem sumFrom_nil (k : String) : sumFrom k [] = 0 := rfl

theorem sumFrom_cons (k : String) (x : MoveSuggestion) (xs : List MoveSuggestion) :
    sumFrom k (x :: xs)
      = (if x.fromCategoryId = k then x.amount else 0) + sumFrom k xs := by
  unfold sumFrom
  by_cases h : x.fromCategoryId = k
  · simp [List.filter_cons, h]
  · simp [List.filter_cons, h]

theorem sumFrom_append (k : String) (xs ys : List MoveSuggestion) :
    sumFrom k (xs ++ ys) = sumFrom k xs + sumFrom k ys := by
  simp [sumFrom, List.filter_append]

theorem sumTo_nil (k : String) : sumTo k [] = 0 := rfl

theorem sumTo_cons (k : String) (x : MoveSuggestion) (xs : List MoveSuggestion) :
    sumTo k (x :: xs)
      = (if x.toCategoryId = k then x.amount else 0) + sumTo k xs := by
  unfold sumTo
  by_cases h : x.toCategoryId = k
  · simp [List.filter_cons, h]
  · simp [List.filter_cons, h]

theorem sumTo_append (k : String) (xs ys : List MoveSuggestion) :
    sumTo k (xs ++ ys) = sumTo k xs + sumTo k ys := by
  simp [sumTo, List.filter_append]

theorem sumTo_all_eq (k : String) (sugs : List MoveSuggestion)
    (h : ∀ s ∈ sugs, s.toCategoryId = k) : sumTo k sugs = sumAmounts sugs := by
  induction sugs with
  | nil => rfl
  | cons x xs ih =>
      rw [sumTo_cons, sumAmounts_cons, if_pos (h x (List.mem_cons_self x xs)),
        ih fun s hs => h s (List.mem_cons_of_mem x hs)]

theorem sumTo_eq_zero (k : String) (sugs : List MoveSuggestion)
    (h : ∀ s ∈ sugs, s.toCategoryId ≠ k) : sumTo k sugs = 0 := by
  induction sugs with
  | nil => rfl
  | cons x xs ih =>
      rw [sumTo_cons, if_neg (h x (List.mem_cons_self x xs)),
        ih fun s hs => h s (List.mem_cons_of_mem x hs)]
      norm_num

/-! ## C4: remaining-table invariants -/

def remCent (r : List (String × ℚ)) : Prop := ∀ k v, dget r k = some v → isCent v

def remNonneg (r : List (String × ℚ)) : Prop := ∀ k v, dget r k = some v → 0 ≤ v

def remTotal (r : List (String × ℚ)) : ℚ := (r.map fun p => p.2).sum

theorem dget_dset_cases {α : Type} (d : List (String × α)) (k : String) (v : α)
    (k' : String) (w : α) (h : dget (dset d k v) k' = some w) :
    (k' = k ∧ w = v) ∨ dget d k' = some w := by
  by_cases hk : k = k'
  · subst hk
    rw [dget_dset_self] at h
    exact Or.inl ⟨rfl, (Option.some.injEq _ _ ▸ h).symm⟩
  · rw [dget_dset_ne d k k' v hk] at h
    exact Or.inr h

theorem remTotal_dset (d : List (String × ℚ)) (k : String) (v w : ℚ)
    (h : dget d k = some v) : remTotal (dset d k w) = remTotal d - v + w := by
  induction d with
  | nil => exact absurd h (by simp [dget])
  | cons p rest ih =>
      obtain ⟨k', v'⟩ := p
      by_cases hk : k' = k
      · subst hk
        simp [dget] at h
        subst h
        have hds : dset ((k', v') :: rest) k' w = (k', w) :: rest := by
          simp [dset]
        rw [hds]
        simp only [remTotal, List.map_cons, List.sum_cons]
        ring
      · simp only [dget, if_neg hk] at h
        simp only [dset, if_neg hk, remTotal, List.map_cons, List.sum_cons]
        have := ih h
        unfold remTotal at this
        rw [this]
        ring

theorem remTotal_nonneg (d : List (String × ℚ)) (hn : keysNodup d)
    (h : remNonneg d) : 0 ≤ remTotal d := by
  induction d with
  | nil => simp [remTotal]
  | cons p rest ih =>
      obtain ⟨k, v⟩ := p
      simp only [keysNodup, dkeys, List.map_cons, List.nodup_cons] at hn
      have hv : 0 ≤ v := h k v (by simp [dget])
      have hrest : remNonneg rest := by
        intro k' v' hk'
        refine h k' v' ?_
        have hne : k ≠ k' := by
          intro he
          subst he
          exact hn.1 (by
            simpa [dkeys] using List.mem_map_of_mem Prod.fst (dget_some_mem rest k v' hk'))
        simp [dget, hne, hk']
      have := ih hn.2 hrest
      simp only [remTotal, List.map_cons, List.sum_cons]
      unfold remTotal at this
      linarith

theorem dset_not_mem_eq_append {α : Type} (d : List (String × α)) (k : String) (v : α)
    (h : k ∉ dkeys d) : dset d k v = d ++ [(k, v)] := by
  induction d with
  | nil => rfl
  | cons p rest ih =>
      obtain ⟨k', v'⟩ := p
      simp only [dkeys, List.map_cons, List.mem_cons, not_or] at h
      simp [dset, Ne.symm h.1, ih (by simpa [dkeys] using h.2)]

theorem qabs_nonneg (x : ℚ) : 0 ≤ qabs x := by
  unfold qabs
  split_ifs with h
  · linarith
  · exact le_of_not_lt h

/-! ## C4: reduction lemmas for the greedy loops -/

theorem serviceOne_cons_skip (deficit s : CategoryBalance) (rest : List CategoryBalance)
    (remaining : List (String × ℚ)) (needed : ℚ)
    (h : (dget remaining s.categoryId).getD 0 ≤ 0) :
    serviceOne deficit (s :: rest) remaining needed
      = serviceOne deficit rest remaining needed := by
  simp only [serviceOne]
  rw [if_pos h]

theorem serviceOne_cons_break (deficit s : CategoryBalance) (rest : List CategoryBalance)
    (remaining : List (String × ℚ)) (needed A : ℚ)
    (hsome : dget remaining s.categoryId = some A) (hA : 0 < A)
    (hbr : needed - min needed A ≤ 5/1000) :
    serviceOne deficit (s :: rest) remaining needed
      = (dset remaining s.categoryId (A - min needed A), needed - min needed A,
         [{ fromCategory := s.name, fromCategoryId := s.categoryId,
            toCategory := deficit.name, toCategoryId := deficit.categoryId,
            amount := round2 (min needed A) }]) := by
  simp only [serviceOne, hsome, Option.getD_some]
  rw [if_neg (not_le.mpr hA), if_pos hbr]

theorem serviceOne_cons_go (deficit s : CategoryBalance) (rest : List CategoryBalance)
    (remaining : List (String × ℚ)) (needed A : ℚ)
    (hsome : dget remaining s.categoryId = some A) (hA : 0 < A)
    (hbr : ¬ needed - min needed A ≤ 5/1000) :
    serviceOne deficit (s :: rest) remaining needed
      = ((serviceOne deficit rest (dset remaining s.categoryId (A - min needed A))
            (needed - min needed A)).1,
         (serviceOne deficit rest (dset remaining s.categoryId (A - min needed A))
            (needed - min needed A)).2.1,
         { fromCategory := s.name, fromCategoryId := s.categoryId,
           toCategory := deficit.name, toCategoryId := deficit.categoryId,
           amount := round2 (min needed A) }
           :: (serviceOne deficit rest (dset remaining s.categoryId (A - min needed A))
                (needed - min needed A)).2.2) := by
  simp only [serviceOne, hsome, Option.getD_some]
  rw [if_neg (not_le.mpr hA), if_neg hbr]

theorem serviceAll_nil (sources : List CategoryBalance) (remaining : List (String × ℚ)) :
    serviceAll sources [] remaining = (remaining, []) := rfl

theorem serviceAll_cons (sources : List CategoryBalance) (d : CategoryBalance)
    (ds : List CategoryBalance) (remaining : List (String × ℚ)) :
    serviceAll sources (d :: ds) remaining
      = ((serviceAll sources ds (serviceOne d sources remaining (qabs d.amount)).1).1,
         (serviceOne d sources remaining (qabs d.amount)).2.2
           ++ (serviceAll sources ds (serviceOne d sources remaining (qabs d.amount)).1).2) :=
  rfl

/-! ## C4: the inner-loop accounting specification -/

/-- Full accounting for one pass of the inner source loop: the final
`needed` stays nonnegative on the cent grid, all table invariants are
preserved, every key's balance decreases by exactly the total drawn from
it, the total suggested equals the drop in `needed` and in the table
total, and every suggestion targets the serviced deficit. -/
theorem serviceOne_spec (deficit : CategoryBalance) :
    ∀ (srcs : List CategoryBalance) (remaining : List (String × ℚ)) (needed : ℚ),
      0 ≤ needed → isCent needed → remCent remaining → remNonneg remaining →
      keysNodup remaining →
      0 ≤ (serviceOne deficit srcs remaining needed).2.1
      ∧ isCent (serviceOne deficit srcs remaining needed).2.1
      ∧ remCent (serviceOne deficit srcs remaining needed).1
      ∧ remNonneg (serviceOne deficit srcs remaining needed).1
      ∧ keysNodup (serviceOne deficit srcs remaining needed).1
      ∧ (∀ q, (dget remaining q).getD 0
          = (dget (serviceOne deficit srcs remaining needed).1 q).getD 0
            + sumFrom q (serviceOne deficit srcs remaining needed).2.2)
      ∧ needed = (serviceOne deficit srcs remaining needed).2.1
          + sumAmounts (serviceOne deficit srcs remaining needed).2.2
      ∧ (∀ x ∈ (serviceOne deficit srcs remaining needed).2.2,
          x.toCategoryId = deficit.categoryId)
      ∧ remTotal remaining
        = remTotal (serviceOne deficit srcs remaining needed).1
          + sumAmounts (serviceOne deficit srcs remaining needed).2.2 := by
  intro srcs
  induction srcs with
  | nil =>
      intro remaining needed h0 hc hrc hrn hkn
      refine ⟨h0, hc, hrc, hrn, hkn, fun q => ?_, ?_, ?_, ?_⟩
      · simp [serviceOne, sumFrom_nil]
      · simp [serviceOne, sumAmounts_nil]
      · intro x hx
        simp [serviceOne] at hx
      · simp [serviceOne, sumAmounts_nil]
  | cons s rest ih =>
      intro remaining needed h0 hc hrc hrn hkn
      by_cases hav : (dget remaining s.categoryId).getD 0 ≤ 0
      · rw [serviceOne_cons_skip deficit s rest remaining needed hav]
        exact ih remaining needed h0 hc hrc hrn hkn
      · push_neg at hav
        have hsome : dget remaining s.categoryId
            = some ((dget remaining s.categoryId).getD 0) := by
          cases hdg : dget remaining s.categoryId with
          | none => rw [hdg] at hav; simp at hav
          | some a => rfl
        generalize hAeq : (dget remaining s.categoryId).getD 0 = A at hav hsome
        have hAc : isCent A := hrc _ _ hsome
        have hM0 : 0 ≤ min needed A := le_min h0 (le_of_lt hav)
        have hMc : isCent (min needed A) := isCent_min hc hAc
        have hamt : round2 (min needed A) = min needed A := round2_eq_self hMc
        have hN0 : 0 ≤ needed - min needed A := sub_nonneg.mpr (min_le_left needed A)
        have hNc : isCent (needed - min needed A) := isCent_sub hc hMc
        have hrc' : remCent (dset remaining s.categoryId (A - min needed A)) := by
          intro k v hkv
          rcases dget_dset_cases remaining s.categoryId _ k v hkv with ⟨_, rfl⟩ | h2
          · exact isCent_sub hAc hMc
          · exact hrc _ _ h2
        have hrn' : remNonneg (dset remaining s.categoryId (A - min needed A)) := by
          intro k v hkv
          rcases dget_dset_cases remaining s.categoryId _ k v hkv with ⟨_, rfl⟩ | h2
          · exact sub_nonneg.mpr (min_le_right needed A)
          · exact hrn _ _ h2
        have hkn' : keysNodup (dset remaining s.categoryId (A - min needed A)) :=
          keysNodup_dset remaining s.categoryId _ hkn
        have hstep : ∀ q, (dget remaining q).getD 0
            = (dget (dset remaining s.categoryId (A - min needed A)) q).getD 0
              + (if s.categoryId = q then min needed A else 0) := by
          intro q
          by_cases hq : s.categoryId = q
          · subst hq
            rw [dget_dset_self, hsome, if_pos rfl]
            simp only [Option.getD_some]
            ring
          · rw [dget_dset_ne remaining s.categoryId q _ hq, if_neg hq]
            ring
        have htot : remTotal remaining
            = remTotal (dset remaining s.categoryId (A - min needed A)) + min needed A := by
          rw [remTotal_dset remaining s.categoryId A _ hsome]
          ring
        by_cases hbr : needed - min needed A ≤ 5/1000
        · rw [serviceOne_cons_break deficit s rest remaining needed A hsome hav hbr]
          refine ⟨hN0, hNc, hrc', hrn', hkn', fun q => ?_, ?_, ?_, ?_⟩
          · rw [hstep q, sumFrom_cons, sumFrom_nil]
            simp only [hamt]
            ring
          · rw [sumAmounts_cons, sumAmounts_nil, hamt]
            ring
          · intro x hx
            simp only [List.mem_singleton] at hx
            subst hx
            rfl
          · rw [sumAmounts_cons, sumAmounts_nil, hamt, htot]
            ring
        · rw [serviceOne_cons_go deficit s rest remaining needed A hsome hav hbr]
          obtain ⟨ih0, ihc, ihrc, ihrn, ihkn, ihstep, ihneed, ihto, ihtot⟩ :=
            ih (dset remaining s.categoryId (A - min needed A)) (needed - min needed A)
              hN0 hNc hrc' hrn' hkn'
          refine ⟨ih0, ihc, ihrc, ihrn, ihkn, fun q => ?_, ?_, ?_, ?_⟩
          · rw [hstep q, ihstep q, sumFrom_cons]
            simp only [hamt]
            ring
          · rw [sumAmounts_cons, hamt]
            rw [sub_eq_iff_eq_add] at ihneed
            linarith [ihneed]
          · intro x hx
            rcases List.mem_cons.mp hx with rfl | hx'
            · rfl
            · exact ihto x hx'
          · rw [sumAmounts_cons, hamt, htot, ihtot]
            ring

/-- Full accounting for the outer deficit loop: table invariants are
preserved, each key's balance drops by exactly the total drawn from it,
the table total drops by the total suggested, every suggestion targets
one of the deficits, and — when the deficit category ids are distinct —
the total suggested into any single deficit never exceeds its
magnitude. -/
theorem serviceAll_spec (sources : List CategoryBalance) :
    ∀ (deficits : List CategoryBalance) (remaining : List (String × ℚ)),
      remCent remaining → remNonneg remaining → keysNodup remaining →
      (∀ d ∈ deficits, isCent d.amount) →
      remCent (serviceAll sources deficits remaining).1
      ∧ remNonneg (serviceAll sources deficits remaining).1
      ∧ keysNodup (serviceAll sources deficits remaining).1
      ∧ (∀ q, (dget remaining q).getD 0
          = (dget (serviceAll sources deficits remaining).1 q).getD 0
            + sumFrom q (serviceAll sources deficits remaining).2)
      ∧ remTotal remaining
        = remTotal (serviceAll sources deficits remaining).1
          + sumAmounts (serviceAll sources deficits remaining).2
      ∧ (∀ x ∈ (serviceAll sources deficits remaining).2,
          ∃ d ∈ deficits, x.toCategoryId = d.categoryId)
      ∧ ((deficits.map fun d => d.categoryId).Nodup →
          ∀ d ∈ deficits,
            sumTo d.categoryId (serviceAll sources deficits remaining).2
              ≤ qabs d.amount) := by
  intro deficits
  induction deficits with
  | nil =>
      intro remaining hrc hrn hkn _
      rw [serviceAll_nil]
      refine ⟨hrc, hrn, hkn, fun q => ?_, ?_, ?_, ?_⟩
      · simp [sumFrom_nil]
      · simp [sumAmounts_nil]
      · intro x hx
        cases hx
      · intro _ d hd
        cases hd
  | cons d ds ih =>
      intro remaining hrc hrn hkn hcent
      rw [serviceAll_cons]
      obtain ⟨h10, h1c, h1rc, h1rn, h1kn, h1step, h1need, h1to, h1tot⟩ :=
        serviceOne_spec d sources remaining (qabs d.amount) (qabs_nonneg d.amount)
          (isCent_qabs (hcent d (List.mem_cons_self d ds))) hrc hrn hkn
      obtain ⟨h2rc, h2rn, h2kn, h2step, h2tot, h2to, h2cap⟩ :=
        ih (serviceOne d sources remaining (qabs d.amount)).1 h1rc h1rn h1kn
          fun d' hd' => hcent d' (List.mem_cons_of_mem d hd')
      refine ⟨h2rc, h2rn, h2kn, fun q => ?_, ?_, ?_, ?_⟩
      · rw [sumFrom_append, h1step q, h2step q]
        ring
      · rw [sumAmounts_append, h1tot, h2tot]
        ring
      · intro x hx
        rcases List.mem_append.mp hx with hx1 | hx2
        · exact ⟨d, List.mem_cons_self d ds, h1to x hx1⟩
        · obtain ⟨d', hd', he⟩ := h2to x hx2
          exact ⟨d', List.mem_cons_of_mem d hd', he⟩
      · intro hnd d' hd'
        simp only [List.map_cons, List.nodup_cons] at hnd
        rcases List.mem_cons.mp hd' with rfl | hd2
        · rw [sumTo_append]
          have hall : sumTo d'.categoryId
              (serviceOne d' sources remaining (qabs d'.amount)).2.2
              = sumAmounts (serviceOne d' sources remaining (qabs d'.amount)).2.2 :=
            sumTo_all_eq _ _ h1to
          have hz : sumTo d'.categoryId
              (serviceAll sources ds (serviceOne d' sources remaining (qabs d'.amount)).1).2
              = 0 := by
            refine sumTo_eq_zero _ _ fun x hx => ?_
            obtain ⟨d2, hd2, he⟩ := h2to x hx
            rw [he]
            intro hcontra
            exact hnd.1 (hcontra ▸ List.mem_map_of_mem (fun d => d.categoryId) hd2)
          rw [hall, hz]
          have : sumAmounts (serviceOne d' sources remaining (qabs d'.amount)).2.2
              = qabs d'.amount
                - (serviceOne d' sources remaining (qabs d'.amount)).2.1 := by
            linarith [h1need]
          rw [this]
          linarith [h10]
        · rw [sumTo_append]
          have hz : sumTo d'.categoryId
              (serviceOne d sources remaining (qabs d.amount)).2.2 = 0 := by
            refine sumTo_eq_zero _ _ fun x hx => ?_
            rw [h1to x hx]
            intro hcontra
            exact hnd.1 (hcontra ▸ List.mem_map_of_mem (fun d => d.categoryId) hd2)
          rw [hz]
          have := h2cap hnd.2 d' hd2
          linarith

/-! ## C4: `source_remaining` construction lemmas -/

theorem dget_foldl_dset_not_mem (l : List CategoryBalance) :
    ∀ (init : List (String × ℚ)) (q : String),
      q ∉ l.map (fun s => s.categoryId) →
      dget (l.foldl (fun m x => dset m x.categoryId x.amount) init) q = dget init q := by
  induction l with
  | nil => intro init q _; rfl
  | cons x rest ih =>
      intro init q hq
      simp only [List.map_cons, List.mem_cons, not_or] at hq
      simp only [List.foldl_cons]
      rw [ih _ q hq.2, dget_dset_ne init x.categoryId q x.amount fun h => hq.1 h.symm]

theorem dget_buildRemaining (l : List CategoryBalance) :
    ∀ (init : List (String × ℚ)), (l.map fun s => s.categoryId).Nodup →
      ∀ s ∈ l, dget (l.foldl (fun m x => dset m x.categoryId x.amount) init) s.categoryId
        = some s.amount := by
  induction l with
  | nil =>
      intro init _ s hs
      cases hs
  | cons x rest ih =>
      intro init hn s hs
      simp only [List.map_cons, List.nodup_cons] at hn
      simp only [List.foldl_cons]
      rcases List.mem_cons.mp hs with rfl | hs'
      · rw [dget_foldl_dset_not_mem rest _ s.categoryId hn.1, dget_dset_self]
      · exact ih (dset init x.categoryId x.amount) hn.2 s hs'

theorem remPred_foldl_dset (P : ℚ → Prop) (l : List CategoryBalance) :
    ∀ init : List (String × ℚ),
      (∀ k v, dget init k = some v → P v) → (∀ s ∈ l, P s.amount) →
      ∀ k v, dget (l.foldl (fun m x => dset m x.categoryId x.amount) init) k = some v →
        P v := by
  induction l with
  | nil =>
      intro init hinit _ k v h
      exact hinit k v h
  | cons x rest ih =>
      intro init hinit hl k v h
      refine ih (dset init x.categoryId x.amount) ?_
        (fun s hs => hl s (List.mem_cons_of_mem x hs)) k v h
      intro k' v' h'
      rcases dget_dset_cases init x.categoryId x.amount k' v' h' with ⟨_, rfl⟩ | h2
      · exact hl x (List.mem_cons_self x rest)
      · exact hinit k' v' h2

theorem keysNodup_foldl_dset (l : List CategoryBalance) :
    ∀ init : List (String × ℚ), keysNodup init →
      keysNodup (l.foldl (fun m x => dset m x.categoryId x.amount) init) := by
  induction l with
  | nil => intro init h; exact h
  | cons x rest ih =>
      intro init h
      exact ih _ (keysNodup_dset init x.categoryId x.amount h)

theorem remTotal_foldl_dset_fresh (l : List CategoryBalance) :
    ∀ init : List (String × ℚ),
      (l.map fun s => s.categoryId).Nodup →
      (∀ s ∈ l, s.categoryId ∉ dkeys init) →
      remTotal (l.foldl (fun m x => dset m x.categoryId x.amount) init)
        = remTotal init + (l.map fun s => s.amount).sum := by
  induction l with
  | nil =>
      intro init _ _
      simp [remTotal]
  | cons x rest ih =>
      intro init hn hf
      simp only [List.map_cons, List.nodup_cons] at hn
      have hx := hf x (List.mem_cons_self x rest)
      have hfresh : ∀ s ∈ rest, s.categoryId ∉ dkeys (dset init x.categoryId x.amount) := by
        intro s hs
        rw [dkeys_dset_not_mem init _ _ hx]
        simp only [List.mem_append, List.mem_singleton, not_or]
        refine ⟨hf s (List.mem_cons_of_mem x hs), ?_⟩
        intro he
        refine hn.1 ?_
        rw [← he]
        exact List.mem_map_of_mem (fun s => s.categoryId) hs
      simp only [List.foldl_cons, List.map_cons, List.sum_cons]
      rw [ih (dset init x.categoryId x.amount) hn.2 hfresh,
        dset_not_mem_eq_append init x.categoryId x.amount hx]
      simp only [remTotal, List.map_append, List.sum_append, List.map_cons,
        List.sum_cons, List.map_nil, List.sum_nil]
      ring

theorem remTotal_buildRemaining (l : List CategoryBalance)
    (hn : (l.map fun s => s.categoryId).Nodup) :
    remTotal (buildRemaining l) = (l.map fun s => s.amount).sum := by
  unfold buildRemaining
  rw [remTotal_foldl_dset_fresh l [] hn (by intro s _; simp [dkeys])]
  simp [remTotal]

/-! ## C4: sorting permutes -/

theorem insertLe_perm {α : Type} (le : α → α → Bool) (a : α) (l : List α) :
    (insertLe le a l).Perm (a :: l) := by
  induction l with
  | nil => exact List.Perm.refl _
  | cons b bs ih =>
      by_cases h : le b a = true
      · rw [insertLe, if_pos h]
        exact (ih.cons b).trans (List.Perm.swap a b bs)
      · rw [insertLe, if_neg h]

theorem isort_perm {α : Type} (le : α → α → Bool) (l : List α) :
    (isort le l).Perm l := by
  induction l with
  | nil => exact List.Perm.refl _
  | cons a as ih =>
      exact (insertLe_perm le a (isort le as)).trans (ih.cons a)

/-- C4: `analyze_overspending` partitions the visible categories into
overspent (balance < −0.005) and sources (balance > 0.005); deficits are
serviced most-negative-first and sources offer richest-first (the two
sorts); the total suggested into any single deficit never exceeds its
magnitude; the total drawn from any single source never exceeds its
surplus; and the total suggested never exceeds the total surplus, so
when surplus falls short of the total deficit the deficits stay partly
uncovered rather than money being fabricated. -/
theorem C4_overspending_conservation (groups : List CategoryGroup)
    (hids : ((visibleCategories groups).map fun c => c.id).Nodup) :
    (∀ b, b ∈ (analyzeOverspending groups).overspent
        ↔ ∃ c ∈ visibleCategories groups,
            m2d c.balance < -(5/1000 : ℚ) ∧ b = toBalance c)
    ∧ (∀ b, b ∈ (analyzeOverspending groups).sources
        ↔ ∃ c ∈ visibleCategories groups,
            (5/1000 : ℚ) < m2d c.balance ∧ b = toBalance c)
    ∧ List.Sorted (fun a b : CategoryBalance => a.amount ≤ b.amount)
        (analyzeOverspending groups).overspent
    ∧ List.Sorted (fun a b : CategoryBalance => b.amount ≤ a.amount)
        (analyzeOverspending groups).sources
    ∧ (∀ d ∈ (analyzeOverspending groups).overspent,
        sumTo d.categoryId (analyzeOverspending groups).suggestions ≤ qabs d.amount)
    ∧ (∀ s ∈ (analyzeOverspending groups).sources,
        sumFrom s.categoryId (analyzeOverspending groups).suggestions ≤ s.amount)
    ∧ sumAmounts (analyzeOverspending groups).suggestions
        ≤ ((analyzeOverspending groups).sources.map fun s => s.amount).sum
    ∧ (((analyzeOverspending groups).sources.map fun s => s.amount).sum
          < ((analyzeOverspending groups).overspent.map fun d => qabs d.amount).sum →
        sumAmounts (analyzeOverspending groups).suggestions
          < ((analyzeOverspending groups).overspent.map fun d => qabs d.amount).sum) := by
  have hO : (analyzeOverspending groups).overspent
      = isort (fun x y => decide (x.amount ≤ y.amount)) (overspentOf groups) := rfl
  have hS : (analyzeOverspending groups).sources
      = isort (fun x y => decide (y.amount ≤ x.amount)) (sourcesOf groups) := rfl
  have hSug : (analyzeOverspending groups).suggestions
      = (serviceAll (analyzeOverspending groups).sources
          (analyzeOverspending groups).overspent
          (buildRemaining (analyzeOverspending groups).sources)).2 := rfl
  have hOids : ((analyzeOverspending groups).overspent.map fun b => b.categoryId).Nodup := by
    rw [hO]
    refine ((isort_perm (fun x y => decide (x.amount ≤ y.amount))
      (overspentOf groups)).map fun b => b.categoryId).nodup_iff.mpr ?_
    have h1 : (overspentOf groups).map (fun b => b.categoryId)
        = ((visibleCategories groups).filter fun c =>
            decide (m2d c.balance < -(5/1000 : ℚ))).map fun c : Category => c.id := by
      unfold overspentOf
      rw [List.map_map]
      rfl
    rw [h1]
    exact (List.Sublist.map (fun c : Category => c.id) (List.filter_sublist _)).nodup hids
  have hSids : ((analyzeOverspending groups).sources.map fun b => b.categoryId).Nodup := by
    rw [hS]
    refine ((isort_perm (fun x y => decide (y.amount ≤ x.amount))
      (sourcesOf groups)).map fun b => b.categoryId).nodup_iff.mpr ?_
    have h1 : (sourcesOf groups).map (fun b => b.categoryId)
        = ((visibleCategories groups).filter fun c =>
            decide ((5/1000 : ℚ) < m2d c.balance)).map fun c : Category => c.id := by
      unfold sourcesOf
      rw [List.map_map]
      rfl
    rw [h1]
    exact (List.Sublist.map (fun c : Category => c.id) (List.filter_sublist _)).nodup hids
  have hScent : ∀ s ∈ (analyzeOverspending groups).sources, isCent s.amount := by
    intro s hs
    rw [hS, mem_isort] at hs
    unfold sourcesOf at hs
    rw [List.mem_map] at hs
    obtain ⟨c, _, rfl⟩ := hs
    exact isCent_round2 _
  have hSnonneg : ∀ s ∈ (analyzeOverspending groups).sources, 0 ≤ s.amount := by
    intro s hs
    rw [hS, mem_isort] at hs
    unfold sourcesOf at hs
    rw [List.mem_map] at hs
    obtain ⟨c, hc, rfl⟩ := hs
    rw [List.mem_filter] at hc
    have hpos : (5/1000 : ℚ) < m2d c.balance := of_decide_eq_true hc.2
    exact round2_nonneg (le_trans (by norm_num) (le_of_lt hpos))
  have hOcent : ∀ d ∈ (analyzeOverspending groups).overspent, isCent d.amount := by
    intro d hd
    rw [hO, mem_isort] at hd
    unfold overspentOf at hd
    rw [List.mem_map] at hd
    obtain ⟨c, _, rfl⟩ := hd
    exact isCent_round2 _
  have hbrc : remCent (buildRemaining (analyzeOverspending groups).sources) := by
    intro k v h
    unfold buildRemaining at h
    exact remPred_foldl_dset isCent _ []
      (by intro k' v' h'; simp [dget] at h') hScent k v h
  have hbrn : remNonneg (buildRemaining (analyzeOverspending groups).sources) := by
    intro k v h
    unfold buildRemaining at h
    exact remPred_foldl_dset (fun v => 0 ≤ v) _ []
      (by intro k' v' h'; simp [dget] at h') hSnonneg k v h
  have hbkn : keysNodup (buildRemaining (analyzeOverspending groups).sources) := by
    unfold buildRemaining
    exact keysNodup_foldl_dset _ [] (by simp [keysNodup, dkeys])
  obtain ⟨farc, farn, fakn, fastep, fatot, fato, facap⟩ :=
    serviceAll_spec (analyzeOverspending groups).sources
      (analyzeOverspending groups).overspent
      (buildRemaining (analyzeOverspending groups).sources)
      hbrc hbrn hbkn hOcent
  have hnofab : sumAmounts (analyzeOverspending groups).suggestions
      ≤ ((analyzeOverspending groups).sources.map fun s => s.amount).sum := by
    have hfin : 0 ≤ remTotal (serviceAll (analyzeOverspending groups).sources
        (analyzeOverspending groups).overspent
        (buildRemaining (analyzeOverspending groups).sources)).1 :=
      remTotal_nonneg _ fakn farn
    have htotS := remTotal_buildRemaining (analyzeOverspending groups).sources hSids
    rw [hSug]
    linarith [fatot]
  refine ⟨fun b => ?_, fun b => ?_, ?_, ?_, ?_, ?_, hnofab, fun hlt => lt_of_le_of_lt hnofab hlt⟩
  · rw [hO, mem_isort]
    unfold overspentOf
    simp only [List.mem_map, List.mem_filter, decide_eq_true_eq]
    constructor
    · rintro ⟨c, ⟨hcv, hcb⟩, rfl⟩
      exact ⟨c, hcv, hcb, rfl⟩
    · rintro ⟨c, hcv, hcb, rfl⟩
      exact ⟨c, ⟨hcv, hcb⟩, rfl⟩
  · rw [hS, mem_isort]
    unfold sourcesOf
    simp only [List.mem_map, List.mem_filter, decide_eq_true_eq]
    constructor
    · rintro ⟨c, ⟨hcv, hcb⟩, rfl⟩
      exact ⟨c, hcv, hcb, rfl⟩
    · rintro ⟨c, hcv, hcb, rfl⟩
      exact ⟨c, ⟨hcv, hcb⟩, rfl⟩
  · rw [hO]
    have := sorted_isort (fun x y : CategoryBalance => decide (x.amount ≤ y.amount))
      (fun a b => by
        rcases le_total a.amount b.amount with h | h
        · exact Or.inl (decide_eq_true h)
        · exact Or.inr (decide_eq_true h))
      (fun a b c hab hbc =>
        decide_eq_true (le_trans (of_decide_eq_true hab) (of_decide_eq_true hbc)))
      (overspentOf groups)
    exact this.imp fun h => of_decide_eq_true h
  · rw [hS]
    have := sorted_isort (fun x y : CategoryBalance => decide (y.amount ≤ x.amount))
      (fun a b => by
        rcases le_total b.amount a.amount with h | h
        · exact Or.inl (decide_eq_true h)
        · exact Or.inr (decide_eq_true h))
      (fun a b c hab hbc =>
        decide_eq_true (le_trans (of_decide_eq_true hbc) (of_decide_eq_true hab)))
      (sourcesOf groups)
    exact this.imp fun h => of_decide_eq_true h
  · intro d hd
    rw [hSug]
    exact facap hOids d hd
  · intro s hs
    rw [hSug]
    have hstep := fastep s.categoryId
    have hget : dget (buildRemaining (analyzeOverspending groups).sources) s.categoryId
        = some s.amount := by
      unfold buildRemaining
      exact dget_buildRemaining _ [] hSids s hs
    rw [hget] at hstep
    simp only [Option.getD_some] at hstep
    have hfin : 0 ≤ (dget (serviceAll (analyzeOverspending groups).sources
        (analyzeOverspending groups).overspent
        (buildRemaining (analyzeOverspending groups).sources)).1 s.categoryId).getD 0 := by
      cases hdg : dget (serviceAll (analyzeOverspending groups).sources
          (analyzeOverspending groups).overspent
          (buildRemaining (analyzeOverspending groups).sources)).1 s.categoryId with
      | none => simp
      | some v => simpa using farn _ _ hdg
    linarith

/-- C4 witness: the conservation theorem instantiated on the spec's
concrete scenario (Rent −100, Electric −30, single source Dining +80):
the suggested total never exceeds the available surplus. -/
theorem C4_overspending_conservation_witness :
    ((visibleCategories
        [⟨"G", false, false,
          [⟨"rent", "Rent", 0, 0, -100000, false, false⟩,
           ⟨"elec", "Electric", 0, 0, -30000, false, false⟩,
           ⟨"din", "Dining", 0, 0, 80000, false, false⟩]⟩]).map fun c => c.id).Nodup
    ∧ sumAmounts (analyzeOverspending
        [⟨"G", false, false,
          [⟨"rent", "Rent", 0, 0, -100000, false, false⟩,
           ⟨"elec", "Electric", 0, 0, -30000, false, false⟩,
           ⟨"din", "Dining", 0, 0, 80000, false, false⟩]⟩]).suggestions
      ≤ ((analyzeOverspending
        [⟨"G", false, false,
          [⟨"rent", "Rent", 0, 0, -100000, false, false⟩,
           ⟨"elec", "Electric", 0, 0, -30000, false, false⟩,
           ⟨"din", "Dining", 0, 0, 80000, false, false⟩]⟩]).sources.map
          fun s => s.amount).sum :=
  ⟨by decide,
   (C4_overspending_conservation
      [⟨"G", false, false,
        [⟨"rent", "Rent", 0, 0, -100000, false, false⟩,
         ⟨"elec", "Electric", 0, 0, -30000, false, false⟩,
         ⟨"din", "Dining", 0, 0, 80000, false, false⟩]⟩]
      (by decide)).2.2.2.2.2.2.1⟩

end Ynab
